import Mathlib

/-!
Verification of the insighta book-distillation pipeline.

This file gives a shallow embedding, in Lean 4, of the parts of the
repository the specification claims talk about:

* the bounded-concurrency mapper `parallelMap` (src/unnamed/part_015),
  modelled as a small-step machine over schedules so that properties hold
  for every completion order;
* the orchestrator routes of `src/app/api/book/[id]/output/route.ts`
  (trigger guard, background handlers for both pipelines, output GET);
* the token-budgeted chunker `chunkText` (src/lib/chunker.ts);
* the regex chapter extractor `extractChapters` (src/unnamed/part_012);
* the enum-coercion branch of `coerceEnumValues` (src/lib/ai.ts);
* the chapters pipeline `compressChapters` / `assembleBook`
  (src/lib/pipeline/compress-chapters.ts).

JavaScript strings are modelled as `List Char` (`Str`), token estimates
use the source rule `ceil(chars / 4)`, and LLM calls are abstracted as
oracles giving each call's outcome, since their replies are external
input.
-/

namespace Insighta

/-- JavaScript strings are modelled as lists of characters. -/
abbrev Str := List Char

/-- Characters matched by the JavaScript `\s` class, restricted to the
ASCII whitespace the repository's inputs use. -/
def jsIsSpace (c : Char) : Bool :=
  c = ' ' || c = '\t' || c = '\n' || c = '\r' || c = '\x0b' || c = '\x0c'

/-- `estimateTokens` from src/lib/pdf-parser.ts: `Math.ceil(text.length / 4)`. -/
def estimateTokens (s : Str) : Nat :=
  (s.length + 3) / 4

/-- JavaScript `String.prototype.trim` (whitespace from both ends). -/
def jsTrim (s : Str) : Str :=
  ((s.dropWhile jsIsSpace).reverse.dropWhile jsIsSpace).reverse

/-- JavaScript `Math.round` on a non-negative rational `num / den`,
which rounds half up: `Math.round(x) = floor(x + 1/2)`. -/
def jsRound (num den : Nat) : Nat :=
  (2 * num + den) / (2 * den)

/-! ## The concurrency primitive `parallelMap` (src/unnamed/part_015)

`parallelMap(items, fn, {concurrency, onProgress, continueOnError})`
runs `min concurrency items.length` workers which pull indices from a
shared cursor.  Under `continueOnError = true` (the default, and the
configuration every pipeline stage uses) a worker stores `fn`'s value in
`results[index]`, or the thrown error itself, then increments the shared
`completed` counter and fires `onProgress(completed, total)`.

We model one run as a machine driven by a *schedule*: a list of events
saying which worker action happens next.  `.start` models a free worker
grabbing the cursor index and invoking `fn` on it (the invocation's
synchronous prefix runs here); `.finish i` models the invocation at index
`i` settling, its result being recorded and `onProgress` firing.  `fn`
itself is a deterministic function `Nat → α → Except E R`, `.error`
standing for a throw/rejection. -/

/-- One scheduler event of a `parallelMap` run. -/
inductive PMEvent where
  | start : PMEvent
  | finish (i : Nat) : PMEvent
deriving DecidableEq, Repr

/-- Configuration of one `parallelMap` call (with `continueOnError = true`). -/
structure PMConfig (α E R : Type) where
  items : List α
  fn : Nat → α → Except E R
  concurrency : Nat

/-- Machine state of a `parallelMap` run.  `results` has one slot per
item (`none` = not yet settled), `startedLog` records each invocation of
`fn` in the order the cursor handed indices out, and `events` records the
`(completed, total)` arguments of each `onProgress` call in order. -/
structure PMState (E R : Type) where
  cursor : Nat
  inFlight : List Nat
  results : List (Option (Except E R))
  completed : Nat
  startedLog : List Nat
  events : List (Nat × Nat)
deriving Repr

/-- Initial state: `results = new Array(items.length)`, cursor at 0. -/
def pmInit {α E R : Type} (cfg : PMConfig α E R) : PMState E R :=
  { cursor := 0
    inFlight := []
    results := List.replicate cfg.items.length none
    completed := 0
    startedLog := []
    events := [] }

/-- The value the worker stores at slot `i`: `fn`'s return value, or the
error it threw (`continueOnError = true` keeps the error as the slot). -/
def pmOutcome {α E R : Type} (cfg : PMConfig α E R) (i : Nat) : Option (Except E R) :=
  (cfg.items.get? i).map (cfg.fn i)

/-- One machine step; `none` when the event is not enabled. -/
def pmStep {α E R : Type} (cfg : PMConfig α E R) (st : PMState E R) :
    PMEvent → Option (PMState E R)
  | PMEvent.start =>
      if st.cursor < cfg.items.length ∧ st.inFlight.length < cfg.concurrency then
        some { st with
          cursor := st.cursor + 1
          inFlight := st.cursor :: st.inFlight
          startedLog := st.startedLog ++ [st.cursor] }
      else none
  | PMEvent.finish i =>
      if i ∈ st.inFlight then
        some { st with
          inFlight := st.inFlight.erase i
          results := st.results.set i (pmOutcome cfg i)
          completed := st.completed + 1
          events := st.events ++ [(st.completed + 1, cfg.items.length)] }
      else none

/-- Run a whole schedule from the initial state. -/
def pmRun {α E R : Type} (cfg : PMConfig α E R) (tr : List PMEvent) :
    Option (PMState E R) :=
  tr.foldl (fun acc e => acc.bind (fun st => pmStep cfg st e)) (some (pmInit cfg))

/-- A state is complete when every index was handed out and every
invocation settled: `Promise.all(workers)` has resolved. -/
def pmComplete {α E R : Type} (cfg : PMConfig α E R) (st : PMState E R) : Prop :=
  st.cursor = cfg.items.length ∧ st.inFlight = []

instance {α E R : Type} (cfg : PMConfig α E R) (st : PMState E R) :
    Decidable (pmComplete cfg st) := by
  unfold pmComplete; infer_instance

/-- Invariant maintained by every `parallelMap` machine step. -/
structure PMInv {α E R : Type} (cfg : PMConfig α E R) (st : PMState E R) : Prop where
  resLen : st.results.length = cfg.items.length
  cursorLe : st.cursor ≤ cfg.items.length
  flLt : ∀ i ∈ st.inFlight, i < st.cursor
  flNodup : st.inFlight.Nodup
  resSpec : ∀ i, i < cfg.items.length →
    st.results[i]? =
      some (if i < st.cursor ∧ i ∉ st.inFlight then pmOutcome cfg i else none)
  startedSpec : st.startedLog = List.range st.cursor
  completedSpec : st.completed + st.inFlight.length = st.cursor
  eventsSpec : st.events = (List.range st.completed).map (fun k => (k + 1, cfg.items.length))

lemma pmInv_init {α E R : Type} (cfg : PMConfig α E R) : PMInv cfg (pmInit cfg) := by
  constructor <;> simp [pmInit]
  intro i hi
  simp [List.getElem?_replicate, hi]

lemma pmInv_step {α E R : Type} (cfg : PMConfig α E R) {st st' : PMState E R}
    {e : PMEvent} (hinv : PMInv cfg st) (hstep : pmStep cfg st e = some st') :
    PMInv cfg st' := by
  cases e with
  | start =>
    simp only [pmStep] at hstep
    split at hstep
    case isTrue hcond =>
      obtain ⟨hc, hw⟩ := hcond
      injection hstep with hse
      subst hse
      constructor
      · exact hinv.resLen
      · show st.cursor + 1 ≤ cfg.items.length
        omega
      · show ∀ i ∈ st.cursor :: st.inFlight, i < st.cursor + 1
        intro i hi
        rcases List.mem_cons.mp hi with h | h
        · omega
        · have := hinv.flLt i h; omega
      · show (st.cursor :: st.inFlight).Nodup
        refine List.Nodup.cons ?_ hinv.flNodup
        intro hmem
        have := hinv.flLt _ hmem; omega
      · show ∀ i, i < cfg.items.length → st.results[i]? =
          some (if i < st.cursor + 1 ∧ i ∉ st.cursor :: st.inFlight
            then pmOutcome cfg i else none)
        intro i hi
        rw [hinv.resSpec i hi]
        congr 1
        refine if_congr ?_ rfl rfl
        simp only [List.mem_cons, not_or]
        constructor
        · rintro ⟨h1, h2⟩
          exact ⟨by omega, by omega, h2⟩
        · rintro ⟨h1, h2, h3⟩
          exact ⟨by omega, h3⟩
      · show st.startedLog ++ [st.cursor] = List.range (st.cursor + 1)
        rw [hinv.startedSpec, List.range_succ]
      · show st.completed + (st.cursor :: st.inFlight).length = st.cursor + 1
        have := hinv.completedSpec
        simp only [List.length_cons]; omega
      · exact hinv.eventsSpec
    case isFalse => cases hstep
  | finish i =>
    simp only [pmStep] at hstep
    split at hstep
    case isTrue hmem =>
      injection hstep with hse
      subst hse
      have hlt : i < st.cursor := hinv.flLt i hmem
      have hlen : i < cfg.items.length := lt_of_lt_of_le hlt hinv.cursorLe
      constructor
      · show (st.results.set i (pmOutcome cfg i)).length = cfg.items.length
        rw [List.length_set, hinv.resLen]
      · exact hinv.cursorLe
      · show ∀ j ∈ st.inFlight.erase i, j < st.cursor
        intro j hj
        exact hinv.flLt j (List.mem_of_mem_erase hj)
      · exact hinv.flNodup.erase i
      · show ∀ j, j < cfg.items.length → (st.results.set i (pmOutcome cfg i))[j]? =
          some (if j < st.cursor ∧ j ∉ st.inFlight.erase i then pmOutcome cfg j else none)
        intro j hj
        rcases eq_or_ne j i with heq | hne
        · subst heq
          rw [List.getElem?_set_eq_of_lt _ (by rw [hinv.resLen]; exact hlen)]
          have hni : j ∉ st.inFlight.erase j := hinv.flNodup.not_mem_erase
          rw [if_pos ⟨hlt, hni⟩]
        · rw [List.getElem?_set_ne (Ne.symm hne)]
          rw [hinv.resSpec j hj]
          congr 1
          refine if_congr ?_ rfl rfl
          rw [List.mem_erase_of_ne hne]
      · exact hinv.startedSpec
      · show st.completed + 1 + (st.inFlight.erase i).length = st.cursor
        have := hinv.completedSpec
        have hflen : st.inFlight.length ≠ 0 := by
          intro hcon
          rw [List.length_eq_zero] at hcon
          rw [hcon] at hmem
          cases hmem
        rw [List.length_erase_of_mem hmem]; omega
      · show st.events ++ [(st.completed + 1, cfg.items.length)] =
          (List.range (st.completed + 1)).map (fun k => (k + 1, cfg.items.length))
        rw [hinv.eventsSpec, List.range_succ, List.map_append]
        rfl
    case isFalse => cases hstep

lemma pmFoldl_none {α E R : Type} (cfg : PMConfig α E R) (tr : List PMEvent) :
    tr.foldl (fun acc e => acc.bind (fun st => pmStep cfg st e))
      (none : Option (PMState E R)) = none := by
  induction tr with
  | nil => rfl
  | cons e tr ih => simpa using ih

lemma pmRunFrom_inv {α E R : Type} (cfg : PMConfig α E R) (tr : List PMEvent) :
    ∀ st0 st : PMState E R, PMInv cfg st0 →
      tr.foldl (fun acc e => acc.bind (fun st => pmStep cfg st e)) (some st0) = some st →
      PMInv cfg st := by
  induction tr with
  | nil =>
    intro st0 st h0 hrun
    simp only [List.foldl_nil, Option.some.injEq] at hrun
    exact hrun ▸ h0
  | cons e tr ih =>
    intro st0 st h0 hrun
    simp only [List.foldl_cons, Option.some_bind] at hrun
    cases hstep : pmStep cfg st0 e with
    | none => rw [hstep] at hrun; rw [pmFoldl_none] at hrun; cases hrun
    | some st1 =>
      rw [hstep] at hrun
      exact ih st1 st (pmInv_step cfg h0 hstep) hrun

/-- Any state reached by a schedule satisfies the invariant. -/
lemma pmRun_inv {α E R : Type} (cfg : PMConfig α E R) {tr : List PMEvent}
    {st : PMState E R} (hrun : pmRun cfg tr = some st) : PMInv cfg st :=
  pmRunFrom_inv cfg tr (pmInit cfg) st (pmInv_init cfg) hrun

lemma pmRun_nil_of_no_items {α E R : Type} (cfg : PMConfig α E R)
    (hempty : cfg.items = []) {tr : List PMEvent} {st : PMState E R}
    (hrun : pmRun cfg tr = some st) : tr = [] ∧ st = pmInit cfg := by
  cases tr with
  | nil =>
    simp only [pmRun, List.foldl_nil, Option.some.injEq] at hrun
    exact ⟨rfl, hrun.symm⟩
  | cons e tr =>
    exfalso
    have hstep : pmStep cfg (pmInit cfg) e = none := by
      cases e with
      | start => simp [pmStep, pmInit, hempty]
      | finish i => simp [pmStep, pmInit]
    simp only [pmRun, List.foldl_cons, Option.some_bind] at hrun
    rw [hstep, pmFoldl_none] at hrun
    cases hrun

/-- C1: for every input list `items` and function `fn`, and every schedule
(completion order) of a `parallelMap(items, fn, opts)` run with
`continueOnError = true`, the final results array has the same length as
`items`, and slot `i` holds exactly the outcome of `fn(items[i], i)` — its
return value (`Except.ok`) or the error it threw (`Except.error`). -/
theorem parallelMap_slot_spec {α E R : Type} (cfg : PMConfig α E R)
    (tr : List PMEvent) (st : PMState E R)
    (hrun : pmRun cfg tr = some st) (hdone : pmComplete cfg st) :
    st.results.length = cfg.items.length ∧
    ∀ i, ∀ hi : i < cfg.items.length,
      st.results[i]? = some (some (cfg.fn i (cfg.items.get ⟨i, hi⟩))) := by
  have hinv := pmRun_inv cfg hrun
  obtain ⟨hcur, hfl⟩ := hdone
  refine ⟨hinv.resLen, fun i hi => ?_⟩
  have hspec := hinv.resSpec i hi
  rw [hcur] at hspec
  rw [hfl] at hspec
  rw [if_pos ⟨hi, List.not_mem_nil i⟩] at hspec
  rw [hspec]
  have hget : cfg.items[i]? = some (cfg.items.get ⟨i, hi⟩) := by
    rw [List.getElem?_eq_getElem hi]
    rfl
  simp [pmOutcome, hget]

/-- Demonstration configuration for the `parallelMap` theorems: two items,
`fn` throws at index 1, two workers. -/
def pmDemoCfg : PMConfig Nat Str Nat :=
  { items := [10, 20]
    fn := fun i a => if i = 1 then Except.error "boom".data else Except.ok (a + i)
    concurrency := 2 }

/-- A schedule in which the invocation at index 1 settles before the one
at index 0 (out-of-order completion). -/
def pmDemoTrace : List PMEvent :=
  [PMEvent.start, PMEvent.start, PMEvent.finish 1, PMEvent.finish 0]

/-- The machine state `pmDemoTrace` drives `pmDemoCfg` into. -/
def pmDemoFinal : PMState Str Nat :=
  { cursor := 2
    inFlight := []
    results := [some (Except.ok 10), some (Except.error "boom".data)]
    completed := 2
    startedLog := [0, 1]
    events := [(1, 2), (2, 2)] }

theorem parallelMap_slot_spec_witness :
    pmRun pmDemoCfg pmDemoTrace = some pmDemoFinal ∧
    pmDemoFinal.results.length = pmDemoCfg.items.length ∧
    pmDemoFinal.results[0]? = some (some (Except.ok 10)) ∧
    pmDemoFinal.results[1]? = some (some (Except.error "boom".data)) := by
  have hrun : pmRun pmDemoCfg pmDemoTrace = some pmDemoFinal := by rfl
  have h := parallelMap_slot_spec pmDemoCfg pmDemoTrace pmDemoFinal hrun ⟨rfl, rfl⟩
  exact ⟨hrun, h.1, (h.2 0 (by simp [pmDemoCfg])).trans (by rfl),
    (h.2 1 (by simp [pmDemoCfg])).trans (by rfl)⟩

/-- C9: in every complete run, the cursor hands out each index `0 … n-1`
exactly once and in order, so `fn` is invoked exactly once per index `i`
(on `items[i]` and `i`: that is what a `.start` transition does), no index
is skipped or repeated even when some invocations throw; `onProgress`
fires exactly once per item with arguments `(k, n)` for `k = 1 … n`; and
on the empty list the only possible run is the empty one: the result
array is empty and neither `fn` nor `onProgress` is ever called. -/
theorem parallelMap_call_spec {α E R : Type} (cfg : PMConfig α E R)
    (tr : List PMEvent) (st : PMState E R)
    (hrun : pmRun cfg tr = some st) (hdone : pmComplete cfg st) :
    st.startedLog = List.range cfg.items.length ∧
    st.events = (List.range cfg.items.length).map (fun k => (k + 1, cfg.items.length)) ∧
    (cfg.items = [] → tr = [] ∧ st.results = [] ∧ st.events = [] ∧ st.startedLog = []) := by
  have hinv := pmRun_inv cfg hrun
  obtain ⟨hcur, hfl⟩ := hdone
  have hcompleted : st.completed = cfg.items.length := by
    have := hinv.completedSpec
    rw [hfl] at this
    simpa [hcur] using this
  refine ⟨by rw [hinv.startedSpec, hcur], by rw [hinv.eventsSpec, hcompleted], ?_⟩
  intro hempty
  obtain ⟨htr, hst⟩ := pmRun_nil_of_no_items cfg hempty hrun
  subst hst
  simp [pmInit, hempty, htr]

/-- Empty-list configuration for the `parallelMap` call-discipline witness. -/
def pmEmptyCfg : PMConfig Nat Str Nat :=
  { items := []
    fn := fun i a => Except.ok (a + i)
    concurrency := 5 }

theorem parallelMap_call_spec_witness :
    pmRun pmEmptyCfg [] = some (pmInit pmEmptyCfg) ∧
    (pmInit pmEmptyCfg).startedLog = List.range pmEmptyCfg.items.length ∧
    (pmInit pmEmptyCfg).results = [] ∧ (pmInit pmEmptyCfg).events = [] := by
  have hrun : pmRun pmEmptyCfg [] = some (pmInit pmEmptyCfg) := rfl
  have h := parallelMap_call_spec pmEmptyCfg [] (pmInit pmEmptyCfg) hrun ⟨rfl, rfl⟩
  exact ⟨hrun, h.1, (h.2.2 rfl).2.1, (h.2.2 rfl).2.2.1⟩

/-! ## Progress writes of the chapters pipeline
(src/app/api/book/[id]/output/route.ts lines 149–209, together with
src/lib/pipeline/compress-chapters.ts)

`processBookInBackground` passes `compressChapters` a callback mapping a
reported `(current, total)` to a Book progress write of
`5 + Math.round((current / total) * 65)`.  `compressChapters` invokes
that callback from two places: the *first statement of each item's `fn`*,
`onProgress?.("Compressing chapters", index + 1, chapters.length)`, which
runs when the worker starts the item, and the `parallelMap` completion
hook, which forwards `(completed, total)`.  We replay a machine schedule
and record the progress value each callback computes, in the order the
callbacks run. -/

/-- Progress value the route writes for a compress-stage callback:
`5 + Math.round((current / total) * 65)`. -/
def compressOnProgressValue (total current : Nat) : Nat :=
  5 + jsRound (65 * current) total

/-- Progress value the route writes for an assemble-stage callback:
`75 + Math.round((current / total) * 20)`. -/
def assembleOnProgressValue (total current : Nat) : Nat :=
  75 + jsRound (20 * current) total

/-- Replay a compress-stage schedule, tracking the cursor and the
completed counter, and record the progress value of each callback:
`index + 1` at a start, `completed` after a finish. -/
def compressStageWritesAux (total : Nat) : List PMEvent → Nat → Nat → List Nat
  | [], _, _ => []
  | PMEvent.start :: tr, cur, comp =>
      compressOnProgressValue total (cur + 1) :: compressStageWritesAux total tr (cur + 1) comp
  | PMEvent.finish _ :: tr, cur, comp =>
      compressOnProgressValue total (comp + 1) :: compressStageWritesAux total tr cur (comp + 1)

def compressStageWrites (total : Nat) (tr : List PMEvent) : List Nat :=
  compressStageWritesAux total tr 0 0

/-- One Book update: the `status` written (if the update sets it) and the
`progress` written (if the update sets it). -/
structure BookWrite where
  status : Option Str
  progress : Option Nat
deriving DecidableEq, Repr

/-- The sequence of Book updates a successful chapters-pipeline run
issues, in initiation order, when the compress stage's `parallelMap`
follows schedule `tr` over `n` chapters:
`updateBookStatus("compressing_chapters", 5)`; one
`updateBookProgress` per compress callback; `compressChapters`' own
`{status: "assembling"}` update; `updateBookStatus("assembling", 75)`;
the two assemble callbacks `(1,2)` and `(2,2)`; `assembleBook`'s
`{status: "completed", progress: 100}` update; and the route's final
`{status: "completed", progress: 100, processingCompletedAt}` update. -/
def chaptersPipelineWrites (n : Nat) (tr : List PMEvent) : List BookWrite :=
  [⟨some "compressing_chapters".data, some 5⟩]
  ++ (compressStageWrites n tr).map (fun p => ⟨none, some p⟩)
  ++ [⟨some "assembling".data, none⟩,
      ⟨some "assembling".data, some 75⟩,
      ⟨none, some (assembleOnProgressValue 2 1)⟩,
      ⟨none, some (assembleOnProgressValue 2 2)⟩,
      ⟨some "completed".data, some 100⟩,
      ⟨some "completed".data, some 100⟩]

/-- The configuration of the compress stage's `parallelMap` call for a
two-chapter book: concurrency 3 (`CONCURRENCY` in compress-chapters.ts),
one item per chapter; both compressions succeed. -/
def compressDemoCfg : PMConfig Unit Str Unit :=
  { items := [(), ()]
    fn := fun _ _ => Except.ok ()
    concurrency := 3 }

/-- The typical schedule: both workers start their items before the first
LLM call resolves, then the items finish in order. -/
def compressDemoTrace : List PMEvent :=
  [PMEvent.start, PMEvent.start, PMEvent.finish 0, PMEvent.finish 1]

/-- Final machine state of `compressDemoTrace` on `compressDemoCfg`. -/
def compressDemoFinal : PMState Str Unit :=
  { cursor := 2
    inFlight := []
    results := [some (Except.ok ()), some (Except.ok ())]
    completed := 2
    startedLog := [0, 1]
    events := [(1, 2), (2, 2)] }

/-- C3: the claim fails on the code.  In a successful two-chapter run of
the chapters pipeline whose compress stage follows the (reachable, indeed
typical) schedule `compressDemoTrace`, the progress values written while
the Book's status is `compressing_chapters` are `5, 38, 70, 38, 70`: the
start-of-item callbacks report `index + 1` while the completion hook
reports `completed`, so after both items have started (progress 70) the
first completion writes progress 38 again.  The write sequence of the run
is therefore not non-decreasing, contradicting the claimed (and
spec-intended) progress monotonicity. -/
theorem chaptersPipeline_progress_regression :
    pmRun compressDemoCfg compressDemoTrace = some compressDemoFinal ∧
    pmComplete compressDemoCfg compressDemoFinal ∧
    (chaptersPipelineWrites 2 compressDemoTrace).filterMap (fun w => w.progress) =
      [5, 38, 70, 38, 70, 75, 85, 95, 100, 100] ∧
    ¬ List.Pairwise (· ≤ ·)
      ((chaptersPipelineWrites 2 compressDemoTrace).filterMap (fun w => w.progress)) := by
  refine ⟨by rfl, ⟨rfl, rfl⟩, by rfl, ?_⟩
  intro hpair
  have : ¬ List.Pairwise (· ≤ ·) ([5, 38, 70, 38, 70, 75, 85, 95, 100, 100] : List Nat) := by
    decide
  exact this (by rw [show ((chaptersPipelineWrites 2 compressDemoTrace).filterMap
    (fun w => w.progress)) = [5, 38, 70, 38, 70, 75, 85, 95, 100, 100] from rfl] at hpair; exact hpair)

/-! ## Book record and orchestrator routes
(src/app/api/book/[id]/output/route.ts; Book fields from
src/unnamed/part_009 and src/unnamed/part_017)

The Book fields the orchestrator writes.  Timestamps are `Option Nat`
(`none` = field unset); `now` is passed in where the code calls
`new Date()`.  The stage functions' externally-visible behaviour is an
outcome per stage: `Except.ok` for a normal return, `Except.error msg`
for a thrown exception with message `msg` — their LLM and store calls
are what can throw, and are external input to the orchestrator. -/

structure Book where
  status : Str
  progress : Nat
  currentStep : Option Str
  error : Option Str
  processingStartedAt : Option Nat
  processingCompletedAt : Option Nat
deriving DecidableEq, Repr

/-- `status.replace(/_/g, " ")`. -/
def underscoresToSpaces (s : Str) : Str :=
  s.map (fun c => if c = '_' then ' ' else c)

/-- `updateBookStatus` (both route variants): sets `status`, `progress`
and the human-readable `currentStep`. -/
def updateBookStatus (b : Book) (status : Str) (progress : Nat) : Book :=
  { b with status := status, progress := progress
           currentStep := some (underscoresToSpaces status) }

/-- `updateBookProgress`: sets only `progress`. -/
def updateBookProgress (b : Book) (p : Nat) : Book :=
  { b with progress := p }

/-- The catch block of the claims pipeline's `processBookInBackground`
(route.ts lines 438–446): sets `status` and `error` — and nothing else. -/
def claimsPipelineCatch (b : Book) (msg : Str) : Book :=
  { b with status := "failed".data, error := some msg }

/-- The catch block of the chapters pipeline's `processBookInBackground`
(route.ts lines 180–189): sets `status`, `error` and
`processingCompletedAt`. -/
def chaptersPipelineCatch (now : Nat) (b : Book) (msg : Str) : Book :=
  { b with status := "failed".data, error := some msg
           processingCompletedAt := some now }

/-- Outcomes of the claims pipeline's stage calls.  `filter` carries
whether unlabeled claims existed (`filterClaims` only writes its
`currentStep` checkpoint when they did); `filteredClaims` is
`getFilteredClaims`' result. -/
structure ClaimsOutcomes where
  extract : Except Str Unit
  filter : Except Str Bool
  filteredClaims : List Str
  cluster : Except Str Unit
  reconstruct : Except Str Unit

def noValuableClaimsMsg : Str :=
  "No valuable claims found in this book. The content may be too generic or already well-known.".data

/-- The claims pipeline's `processBookInBackground` (route.ts lines
379–447), as a transformer of the Book record: each checkpoint and
stage-internal Book write is applied in order; a stage outcome of
`Except.error` jumps to the catch block.  Intra-stage
`updateBookProgress` writes touch only `progress` and are each
superseded by the next full checkpoint, so they are omitted here (the
write *sequence* is studied separately for the progress claims). -/
def processBookInBackgroundClaims (o : ClaimsOutcomes) (b : Book) : Book :=
  let b1 := updateBookStatus b "extracting_claims".data 5
  match o.extract with
  | Except.error msg => claimsPipelineCatch b1 msg
  | Except.ok _ =>
    let b2 := { b1 with currentStep := some "Claims extracted".data }
    let b3 := updateBookStatus b2 "filtering_claims".data 20
    match o.filter with
    | Except.error msg => claimsPipelineCatch b3 msg
    | Except.ok wrote =>
      let b4 := if wrote then { b3 with currentStep := some "Claims filtered".data } else b3
      if o.filteredClaims.length = 0 then
        claimsPipelineCatch b4 noValuableClaimsMsg
      else
        let b5 := updateBookStatus b4 "clustering_ideas".data 40
        match o.cluster with
        | Except.error msg => claimsPipelineCatch b5 msg
        | Except.ok _ =>
          let b6 := { b5 with currentStep := some "Ideas clustered".data }
          let b7 := updateBookStatus b6 "reconstructing".data 70
          match o.reconstruct with
          | Except.error msg => claimsPipelineCatch b7 msg
          | Except.ok _ =>
            let b8 := { b7 with status := "completed".data, progress := 100
                                currentStep := some "Completed".data }
            updateBookStatus b8 "completed".data 100

/-- Outcomes of the chapters pipeline's two stage calls. -/
structure ChaptersOutcomes where
  compress : Except Str Unit
  assemble : Except Str Unit

/-- The chapters pipeline's `processBookInBackground` (route.ts lines
149–190) as a transformer of the Book record, including the Book writes
`compressChapters` and `assembleBook` perform themselves. -/
def processBookInBackgroundChapters (o : ChaptersOutcomes) (now : Nat) (b : Book) : Book :=
  let b1 := updateBookStatus b "compressing_chapters".data 5
  match o.compress with
  | Except.error msg => chaptersPipelineCatch now b1 msg
  | Except.ok _ =>
    let b2 := { b1 with status := "assembling".data
                        currentStep := some "Chapters compressed".data }
    let b3 := updateBookStatus b2 "assembling".data 75
    match o.assemble with
    | Except.error msg => chaptersPipelineCatch now b3 msg
    | Except.ok _ =>
      let b4 := { b3 with status := "completed".data, currentStep := some "Complete".data
                          progress := 100 }
      { b4 with status := "completed".data, progress := 100
                currentStep := some "completed".data
                processingCompletedAt := some now }

/-- The message of the first exception a claims-pipeline run hits, if any
(including the orchestrator's own `Empty` throw for no kept claims). -/
def claimsFirstError (o : ClaimsOutcomes) : Option Str :=
  match o.extract with
  | Except.error msg => some msg
  | Except.ok _ =>
    match o.filter with
    | Except.error msg => some msg
    | Except.ok _ =>
      if o.filteredClaims.length = 0 then some noValuableClaimsMsg
      else
        match o.cluster with
        | Except.error msg => some msg
        | Except.ok _ =>
          match o.reconstruct with
          | Except.error msg => some msg
          | Except.ok _ => none

/-- The message of the first exception a chapters-pipeline run hits. -/
def chaptersFirstError (o : ChaptersOutcomes) : Option Str :=
  match o.compress with
  | Except.error msg => some msg
  | Except.ok _ =>
    match o.assemble with
    | Except.error msg => some msg
    | Except.ok _ => none

/-- A Book in `uploaded` state fresh from preprocessing. -/
def uploadedBook : Book :=
  { status := "uploaded".data
    progress := 0
    currentStep := none
    error := none
    processingStartedAt := none
    processingCompletedAt := none }

/-- Outcomes where the very first claims stage throws `"boom"`. -/
def claimsFailingOutcomes : ClaimsOutcomes :=
  { extract := Except.error "boom".data
    filter := Except.ok true
    filteredClaims := ["c".data]
    cluster := Except.ok ()
    reconstruct := Except.ok () }

/-- C2 counterexample: in the claims pipeline, a stage exception leads to
`status = failed` with the message stored — but `processingCompletedAt`
stays unset, and even a fully successful claims run finishes `completed`
with `processingCompletedAt` still unset, contradicting the claim that
either pipeline's handler sets it and that every terminal Book has it. -/
theorem claimsPipeline_no_completedAt :
    (processBookInBackgroundClaims claimsFailingOutcomes uploadedBook).status = "failed".data ∧
    (processBookInBackgroundClaims claimsFailingOutcomes uploadedBook).error = some "boom".data ∧
    (processBookInBackgroundClaims claimsFailingOutcomes uploadedBook).processingCompletedAt = none ∧
    (processBookInBackgroundClaims
        { claimsFailingOutcomes with extract := Except.ok () } uploadedBook).status =
      "completed".data ∧
    (processBookInBackgroundClaims
        { claimsFailingOutcomes with extract := Except.ok () } uploadedBook).processingCompletedAt =
      none := by
  exact ⟨rfl, rfl, rfl, rfl, rfl⟩

lemma claims_completedAt_const (oc : ClaimsOutcomes) (b : Book) :
    (processBookInBackgroundClaims oc b).processingCompletedAt = b.processingCompletedAt := by
  obtain ⟨oe, of, ofc, ocl, orc⟩ := oc
  cases oe with
  | error m => rfl
  | ok u =>
    cases of with
    | error m => rfl
    | ok wrote =>
      cases wrote <;> cases ofc <;> cases ocl <;> cases orc <;> rfl

lemma claims_error_spec (oc : ClaimsOutcomes) (b : Book) (msg : Str)
    (h : claimsFirstError oc = some msg) :
    (processBookInBackgroundClaims oc b).status = "failed".data ∧
    (processBookInBackgroundClaims oc b).error = some msg := by
  obtain ⟨oe, of, ofc, ocl, orc⟩ := oc
  cases oe with
  | error m =>
    cases h
    exact ⟨rfl, rfl⟩
  | ok u =>
    cases of with
    | error m =>
      cases h
      exact ⟨rfl, rfl⟩
    | ok wrote =>
      cases wrote <;> cases ofc <;> cases ocl <;> cases orc <;>
        first
          | (cases h; exact ⟨rfl, rfl⟩)
          | (cases h)

lemma claims_ok_spec (oc : ClaimsOutcomes) (b : Book)
    (h : claimsFirstError oc = none) :
    (processBookInBackgroundClaims oc b).status = "completed".data ∧
    (processBookInBackgroundClaims oc b).progress = 100 := by
  obtain ⟨oe, of, ofc, ocl, orc⟩ := oc
  cases oe with
  | error m => cases h
  | ok u =>
    cases of with
    | error m => cases h
    | ok wrote =>
      cases wrote <;> cases ofc <;> cases ocl <;> cases orc <;>
        first
          | exact ⟨rfl, rfl⟩
          | cases h

lemma chapters_error_spec (oh : ChaptersOutcomes) (now : Nat) (b : Book) (msg : Str)
    (h : chaptersFirstError oh = some msg) :
    (processBookInBackgroundChapters oh now b).status = "failed".data ∧
    (processBookInBackgroundChapters oh now b).error = some msg ∧
    (processBookInBackgroundChapters oh now b).processingCompletedAt = some now := by
  obtain ⟨ohc, oha⟩ := oh
  cases ohc <;> cases oha <;>
    first
      | (cases h; exact ⟨rfl, rfl, rfl⟩)
      | (cases h)

lemma chapters_ok_spec (oh : ChaptersOutcomes) (now : Nat) (b : Book)
    (h : chaptersFirstError oh = none) :
    (processBookInBackgroundChapters oh now b).status = "completed".data ∧
    (processBookInBackgroundChapters oh now b).progress = 100 ∧
    (processBookInBackgroundChapters oh now b).processingCompletedAt = some now := by
  obtain ⟨ohc, oha⟩ := oh
  cases ohc <;> cases oha <;>
    first
      | exact ⟨rfl, rfl, rfl⟩
      | cases h

/-- C2 (amended): exceptions from any stage are caught by the background
handler of either pipeline and never propagate (the handlers are total
functions of the outcomes); on failure both handlers set
`status = "failed"` and store the exception's message in `error`; but
only the *chapters* pipeline sets `processingCompletedAt` (on failure and
on completion) — the *claims* pipeline leaves `processingCompletedAt`
exactly as it was, on failure and on completion alike, so only
chapters-pipeline terminal Books are guaranteed a completion timestamp. -/
theorem pipeline_error_handling (oc : ClaimsOutcomes) (oh : ChaptersOutcomes)
    (now : Nat) (b : Book) :
    (∀ msg, claimsFirstError oc = some msg →
      (processBookInBackgroundClaims oc b).status = "failed".data ∧
      (processBookInBackgroundClaims oc b).error = some msg) ∧
    (claimsFirstError oc = none →
      (processBookInBackgroundClaims oc b).status = "completed".data ∧
      (processBookInBackgroundClaims oc b).progress = 100) ∧
    (processBookInBackgroundClaims oc b).processingCompletedAt = b.processingCompletedAt ∧
    (∀ msg, chaptersFirstError oh = some msg →
      (processBookInBackgroundChapters oh now b).status = "failed".data ∧
      (processBookInBackgroundChapters oh now b).error = some msg ∧
      (processBookInBackgroundChapters oh now b).processingCompletedAt = some now) ∧
    (chaptersFirstError oh = none →
      (processBookInBackgroundChapters oh now b).status = "completed".data ∧
      (processBookInBackgroundChapters oh now b).progress = 100 ∧
      (processBookInBackgroundChapters oh now b).processingCompletedAt = some now) :=
  ⟨fun msg h => claims_error_spec oc b msg h,
   fun h => claims_ok_spec oc b h,
   claims_completedAt_const oc b,
   fun msg h => chapters_error_spec oh now b msg h,
   fun h => chapters_ok_spec oh now b h⟩

/-- C2 (amended): exceptions from any stage are caught by the background
handler of either pipeline and never propagate (the handlers are total
functions of the outcomes); on failure both handlers set
`status = "failed"` and store the exception's message in `error`; but
only the *chapters* pipeline sets `processingCompletedAt` (on failure and
on completion) — the *claims* pipeline leaves `processingCompletedAt`
exactly as it was, on failure and on completion alike, so only
chapters-pipeline terminal Books are guaranteed a completion timestamp. -/
theorem pipeline_error_handling_witness :
    claimsFirstError claimsFailingOutcomes = some "boom".data ∧
    (processBookInBackgroundClaims claimsFailingOutcomes uploadedBook).processingCompletedAt =
      uploadedBook.processingCompletedAt ∧
    (processBookInBackgroundChapters ⟨Except.error "boom".data, Except.ok ()⟩ 7 uploadedBook).status =
      "failed".data ∧
    (processBookInBackgroundChapters ⟨Except.error "boom".data, Except.ok ()⟩ 7 uploadedBook).processingCompletedAt =
      some 7 := by
  have h := pipeline_error_handling claimsFailingOutcomes
    ⟨Except.error "boom".data, Except.ok ()⟩ 7 uploadedBook
  have hc := h.2.2.2.1 "boom".data (by rfl)
  exact ⟨rfl, h.2.2.1, hc.1, hc.2.2⟩

/-! ## The `POST /book/{id}/process` trigger guard
(route.ts lines 75–143 chapters variant, lines 307–373 claims variant)

Both handlers, after authentication and ownership lookup, check
`book.status !== "uploaded" && book.status !== "failed"` and reject with
HTTP 400 `"Book is already being processed"` without touching the Book;
otherwise they start the detached background task and update the Book. -/

/-- An HTTP JSON response: status code, `success` flag, `error` message. -/
structure ApiResponse where
  httpStatus : Nat
  success : Bool
  error : Option Str
deriving DecidableEq, Repr

def alreadyProcessingMsg : Str := "Book is already being processed".data

/-- The chapters-variant POST handler on an owned Book: returns the
response, the Book record after the handler, and whether the background
pipeline was started. -/
def postProcessChapters (b : Book) (now : Nat) : ApiResponse × Book × Bool :=
  if b.status ≠ "uploaded".data ∧ b.status ≠ "failed".data then
    (⟨400, false, some alreadyProcessingMsg⟩, b, false)
  else
    (⟨200, true, none⟩,
     { b with status := "compressing_chapters".data, progress := 0, error := none
              processingStartedAt := some now, processingCompletedAt := none },
     true)

/-- The claims-variant POST handler on an owned Book (it clears `error`
and sets the initial status but touches no timestamps). -/
def postProcessClaims (b : Book) : ApiResponse × Book × Bool :=
  if b.status ≠ "uploaded".data ∧ b.status ≠ "failed".data then
    (⟨400, false, some alreadyProcessingMsg⟩, b, false)
  else
    (⟨200, true, none⟩,
     { b with status := "extracting_claims".data, progress := 0, error := none },
     true)

/-- C4: for every owned Book, either trigger variant starts processing
iff the Book's status is `uploaded` or `failed`; for any other status the
request leaves the Book unchanged and answers HTTP 400 with
`"Book is already being processed"` (which contains the claim's phrase
"already being processed" as a substring). -/
theorem postProcess_guard (b : Book) (now : Nat) :
    ((postProcessChapters b now).2.2 = true ↔
      (b.status = "uploaded".data ∨ b.status = "failed".data)) ∧
    ((postProcessClaims b).2.2 = true ↔
      (b.status = "uploaded".data ∨ b.status = "failed".data)) ∧
    (¬(b.status = "uploaded".data ∨ b.status = "failed".data) →
      (postProcessChapters b now).2.1 = b ∧
      (postProcessChapters b now).1 = ⟨400, false, some alreadyProcessingMsg⟩ ∧
      (postProcessClaims b).2.1 = b ∧
      (postProcessClaims b).1 = ⟨400, false, some alreadyProcessingMsg⟩) ∧
    "already being processed".data <:+: alreadyProcessingMsg := by
  by_cases hu : b.status = "uploaded".data
  · constructor
    · simp [postProcessChapters, hu]
    · constructor
      · simp [postProcessClaims, hu]
      · refine ⟨fun hcon => absurd (Or.inl hu) hcon, ?_⟩
        exact ⟨"Book is ".data, [], by rfl⟩
  · by_cases hf : b.status = "failed".data
    · constructor
      · simp [postProcessChapters, hu, hf]
      · constructor
        · simp [postProcessClaims, hu, hf]
        · refine ⟨fun hcon => absurd (Or.inr hf) hcon, ?_⟩
          exact ⟨"Book is ".data, [], by rfl⟩
    · constructor
      · simp [postProcessChapters, hu, hf]
      · constructor
        · simp [postProcessClaims, hu, hf]
        · refine ⟨fun _ => ?_, ?_⟩
          · simp [postProcessChapters, postProcessClaims, hu, hf]
          · exact ⟨"Book is ".data, [], by rfl⟩

/-- A Book already mid-pipeline, for the trigger-guard witness. -/
def processingBook : Book :=
  { status := "assembling".data
    progress := 80
    currentStep := some "assembling".data
    error := none
    processingStartedAt := some 3
    processingCompletedAt := none }

theorem postProcess_guard_witness :
    (postProcessChapters uploadedBook 7).2.2 = true ∧
    (postProcessChapters processingBook 7).2.2 = false ∧
    (postProcessChapters processingBook 7).2.1 = processingBook ∧
    (postProcessChapters processingBook 7).1.httpStatus = 400 := by
  have h1 := postProcess_guard uploadedBook 7
  have h2 := postProcess_guard processingBook 7
  have hstarted : (postProcessChapters uploadedBook 7).2.2 = true :=
    h1.1.mpr (Or.inl rfl)
  have hnot : ¬(processingBook.status = "uploaded".data ∨
      processingBook.status = "failed".data) := by decide
  have hrej := h2.2.2.1 hnot
  refine ⟨hstarted, ?_, hrej.1, by rw [hrej.2.1]⟩
  by_contra hc
  rw [Bool.not_eq_false] at hc
  exact hnot (h2.1.mp hc)

/-! ## The `GET /book/{id}/output` route (route.ts lines 6–65)

The handler checks the session, then `Book.findOne({_id, userId})`, then
`FinalOutput.findOne({bookId})`; it never reads `book.status`.  The
lookup results are inputs to the model. -/

/-- A stored FinalOutput record (compression ratio kept as a rational). -/
structure FinalOutputRec where
  markdown : Str
  wordCount : Nat
  ideaCount : Nat
  compressionRatio : Option Rat
deriving DecidableEq, Repr

/-- Outcome of the GET handler. -/
inductive GetOutcome where
  | unauthorized
  | bookNotFound
  | outputNotAvailable
  | ok (markdown : Str) (wordCount ideaCount : Nat) (compressionRatio : Option Rat)
deriving DecidableEq, Repr

/-- HTTP status of each GET outcome (401 / 404 / 404 / 200). -/
def getOutcomeStatus : GetOutcome → Nat
  | GetOutcome.unauthorized => 401
  | GetOutcome.bookNotFound => 404
  | GetOutcome.outputNotAvailable => 404
  | GetOutcome.ok _ _ _ _ => 200

/-- The GET handler: session, owned-book lookup, output lookup. -/
def getBookOutput (user : Option Unit) (book : Option Book)
    (output : Option FinalOutputRec) : GetOutcome :=
  match user with
  | none => GetOutcome.unauthorized
  | some _ =>
    match book with
    | none => GetOutcome.bookNotFound
    | some _ =>
      match output with
      | none => GetOutcome.outputNotAvailable
      | some o => GetOutcome.ok o.markdown o.wordCount o.ideaCount o.compressionRatio

/-- A FinalOutput row as `assembleBook` upserts it. -/
def demoOutput : FinalOutputRec :=
  { markdown := "# Book".data
    wordCount := 2
    ideaCount := 1
    compressionRatio := some (1 / 50 : Rat) }

/-- C8 counterexample: for an owned Book whose status is `assembling`
(not `completed`) but for which a FinalOutput row already exists — the
state `assembleBook` creates between its output upsert and its status
flip, and the state a failed re-run of a once-completed book leaves
behind — the GET route answers 200 with the stored output, not 404: the
handler never consults the Book's status. -/
theorem getOutput_ignores_status :
    processingBook.status ≠ "completed".data ∧
    getBookOutput (some ()) (some processingBook) (some demoOutput) =
      GetOutcome.ok demoOutput.markdown demoOutput.wordCount demoOutput.ideaCount
        demoOutput.compressionRatio ∧
    getOutcomeStatus (getBookOutput (some ()) (some processingBook) (some demoOutput)) = 200 := by
  exact ⟨by decide, rfl, rfl⟩

/-- C8 (amended): for every authenticated request on an owned Book, the
GET route answers 404 iff no FinalOutput row exists for the book (the
Book's status plays no role), and answers 200 with exactly the stored
`markdown`, `wordCount`, `ideaCount` and `compressionRatio` whenever a
row exists. -/
theorem getOutput_spec (b : Book) (output : Option FinalOutputRec) :
    (output = none →
      getBookOutput (some ()) (some b) output = GetOutcome.outputNotAvailable ∧
      getOutcomeStatus (getBookOutput (some ()) (some b) output) = 404) ∧
    (∀ o, output = some o →
      getBookOutput (some ()) (some b) output =
        GetOutcome.ok o.markdown o.wordCount o.ideaCount o.compressionRatio ∧
      getOutcomeStatus (getBookOutput (some ()) (some b) output) = 200) := by
  cases output with
  | none => exact ⟨fun _ => ⟨rfl, rfl⟩, fun o h => nomatch h⟩
  | some o =>
    refine ⟨(fun h => nomatch h), fun o' h => ?_⟩
    cases h
    exact ⟨rfl, rfl⟩

theorem getOutput_spec_witness :
    getBookOutput (some ()) (some uploadedBook) none = GetOutcome.outputNotAvailable ∧
    getOutcomeStatus (getBookOutput (some ()) (some uploadedBook) none) = 404 ∧
    getBookOutput (some ()) (some processingBook) (some demoOutput) =
      GetOutcome.ok demoOutput.markdown demoOutput.wordCount demoOutput.ideaCount
        demoOutput.compressionRatio := by
  have h1 := (getOutput_spec uploadedBook none).1 rfl
  have h2 := (getOutput_spec processingBook (some demoOutput)).2 demoOutput rfl
  exact ⟨h1.1, h1.2, h2.1⟩

/-! ## Enum coercion (src/lib/ai.ts, `coerceEnumValues` lines 98–189)

`coerceEnumValues` walks the parsed value alongside the zod schema; when
it reaches a string value whose schema is an enum (`schema._def.values`)
it runs the cascade modelled here: exact membership, then the normalized
form, then the alias table keyed by the normalized form with underscores
removed, then the enum's first value as a last resort.  `Char.toLower`
matches JavaScript `toLowerCase` on the ASCII enum vocabulary involved. -/

/-- `obj.toLowerCase()`. -/
def lowerStr (s : Str) : Str := s.map Char.toLower

/-- `obj.toLowerCase().replace(/[\s-]/g, "_")`. -/
def normalizeEnumString (s : Str) : Str :=
  (lowerStr s).map (fun c => if jsIsSpace c || c = '-' then '_' else c)

/-- `lowerObj.replace(/_/g, "")`. -/
def stripUnderscores (s : Str) : Str :=
  s.filter (fun c => c ≠ '_')

/-- The fixed alias table `enumMappings` of coerceEnumValues, in source
order. -/
def enumMappings : List (Str × Str) :=
  [("positive", "happy"), ("good", "happy"), ("great", "happy"),
   ("excellent", "happy"), ("negative", "sad"), ("bad", "sad"),
   ("unhappy", "sad"), ("okay", "neutral"), ("fine", "neutral"),
   ("normal", "neutral"), ("core", "core_insight"),
   ("coreinsight", "core_insight"), ("supporting", "supporting_insight"),
   ("supportinginsight", "supporting_insight"), ("duplicate", "redundant"),
   ("repeated", "redundant"), ("generic", "filler"), ("obvious", "filler"),
   ("lowvalue", "filler"), ("low_value", "filler"),
   ("principles", "principle"), ("rules", "rule"),
   ("recommendations", "recommendation"), ("constraints", "constraint"),
   ("causals", "causal"), ("causalinsight", "causal")
  ].map (fun p => (p.1.data, p.2.data))

/-- The enum branch of `coerceEnumValues` (ai.ts lines 131–186): the
value reached when the schema is an enum and the value is a string. -/
def coerceEnumValue (enumValues : List Str) (obj : Str) : Str :=
  if obj ∈ enumValues then obj
  else
    let lowerObj := normalizeEnumString obj
    if lowerObj ∈ enumValues then lowerObj
    else
      match enumMappings.lookup (stripUnderscores lowerObj) with
      | some mapped => if mapped ∈ enumValues then mapped else enumValues.headD []
      | none => enumValues.headD []

lemma headD_mem_of_ne_nil {l : List Str} (h : l ≠ []) : l.headD [] ∈ l := by
  cases l with
  | nil => exact absurd rfl h
  | cons a t => exact List.mem_cons_self a t

/-- C7: for every nonempty declared enum and every string value, the
coercion cascade tries, in order, exact membership, the normalized form
(lowercased, spaces and hyphens to underscores), the fixed alias table
(used only when its result is itself an enum member), and finally falls
back to the enum's first value — so the result is always a member of the
enum, and the branch is a total function (it never throws). -/
theorem coerceEnumValue_spec (enumValues : List Str) (obj : Str)
    (h : enumValues ≠ []) :
    coerceEnumValue enumValues obj ∈ enumValues ∧
    (obj ∈ enumValues → coerceEnumValue enumValues obj = obj) ∧
    (obj ∉ enumValues → normalizeEnumString obj ∈ enumValues →
      coerceEnumValue enumValues obj = normalizeEnumString obj) ∧
    (obj ∉ enumValues → normalizeEnumString obj ∉ enumValues →
      ∀ m, enumMappings.lookup (stripUnderscores (normalizeEnumString obj)) = some m →
        m ∈ enumValues → coerceEnumValue enumValues obj = m) ∧
    (obj ∉ enumValues → normalizeEnumString obj ∉ enumValues →
      (∀ m, enumMappings.lookup (stripUnderscores (normalizeEnumString obj)) = some m →
        m ∉ enumValues) →
      coerceEnumValue enumValues obj = enumValues.headD []) := by
  by_cases h1 : obj ∈ enumValues
  · refine ⟨?_, fun _ => ?_, fun hno _ => absurd h1 hno,
      fun hno _ _ _ _ => absurd h1 hno, fun hno _ _ => absurd h1 hno⟩
    · simpa [coerceEnumValue, h1] using h1
    · simp [coerceEnumValue, h1]
  · by_cases h2 : normalizeEnumString obj ∈ enumValues
    · refine ⟨?_, fun hin => absurd hin h1, fun _ _ => ?_,
        fun _ hno _ _ _ => absurd h2 hno, fun _ hno _ => absurd h2 hno⟩
      · simpa [coerceEnumValue, h1, h2] using h2
      · simp [coerceEnumValue, h1, h2]
    · cases hlk : enumMappings.lookup (stripUnderscores (normalizeEnumString obj)) with
      | none =>
        refine ⟨?_, fun hin => absurd hin h1, fun _ hin => absurd hin h2, ?_, ?_⟩
        · have hmem := headD_mem_of_ne_nil (l := enumValues) h
          simpa [coerceEnumValue, h1, h2, hlk] using hmem
        · intro _ _ m hm
          cases hm
        · intro _ _ _
          simp [coerceEnumValue, h1, h2, hlk]
      | some mapped =>
        by_cases h3 : mapped ∈ enumValues
        · refine ⟨?_, fun hin => absurd hin h1, fun _ hin => absurd hin h2, ?_, ?_⟩
          · simpa [coerceEnumValue, h1, h2, hlk, h3] using h3
          · intro _ _ m hm _
            cases hm
            simp [coerceEnumValue, h1, h2, hlk, h3]
          · intro _ _ hnone
            exact absurd h3 (hnone mapped rfl)
        · refine ⟨?_, fun hin => absurd hin h1, fun _ hin => absurd hin h2, ?_, ?_⟩
          · have hmem := headD_mem_of_ne_nil (l := enumValues) h
            simpa [coerceEnumValue, h1, h2, hlk, h3] using hmem
          · intro _ _ m hm hmem
            cases hm
            exact absurd hmem h3
          · intro _ _ _
            simp [coerceEnumValue, h1, h2, hlk, h3]

/-- The claim-label enum of the filtering schema. -/
def claimLabelEnum : List Str :=
  ["core_insight".data, "supporting_insight".data, "redundant".data, "filler".data]

theorem coerceEnumValue_spec_witness :
    claimLabelEnum ≠ [] ∧
    coerceEnumValue claimLabelEnum "Core".data ∈ claimLabelEnum ∧
    coerceEnumValue claimLabelEnum "Core".data = "core_insight".data ∧
    coerceEnumValue claimLabelEnum "Core Insight".data = "core_insight".data ∧
    coerceEnumValue claimLabelEnum "garbage".data = "core_insight".data := by
  have h := coerceEnumValue_spec claimLabelEnum "Core".data (by decide)
  refine ⟨by decide, h.1, ?_, by rfl, by rfl⟩
  exact h.2.2.2.1 (by decide) (by decide) "core_insight".data (by rfl) (by decide)

/-! ## The chapters pipeline stages
(src/lib/pipeline/compress-chapters.ts)

`compressChapters` loads the book's Chapter records and maps over them
with `parallelMap` (concurrency 3).  Each item's `fn` wraps its whole
body in try/catch and returns `null` on any error, so a failed chapter
contributes `null` to the results and no database update.  By the
`parallelMap` slot theorem, slot `i` of the results equals the outcome at
index `i` in every schedule, so the stage is modelled as an index-ordered
map; the LLM interaction of one chapter (a single call, or the
`splitLargeChapter` multi-part loop for oversized chapters, whose parts
are concatenated) is abstracted as an oracle from the chapter index to
`Except Unit CompressOut`. -/

/-- A Chapter record (`IChapter` in src/unnamed/part_009), restricted to
the fields this stage reads and writes. -/
structure IChapter where
  order : Nat
  title : Str
  level : Nat
  originalContent : Str
  originalTokenCount : Nat
  compressedContent : Option Str
  keyInsights : List Str
  compressedTokenCount : Option Nat
deriving DecidableEq, Repr

/-- The combined LLM result for one chapter: `compressed_content` and
`key_insights` of `ChapterCompressionSchema` (joined across parts for an
oversized chapter). -/
structure CompressOut where
  compressed : Str
  insights : List Str
deriving DecidableEq, Repr

/-- One item's `fn` in `compressChapters` (lines 58–153): on success it
updates the Chapter record and returns the result, on any error it
returns `null` and performs no update. -/
def compressChapterItem (oracle : Nat → Except Unit CompressOut) (i : Nat)
    (ch : IChapter) : Option CompressOut × IChapter :=
  match oracle i with
  | Except.error _ => (none, ch)
  | Except.ok out =>
      (some out,
       { ch with compressedContent := some out.compressed
                 keyInsights := out.insights
                 compressedTokenCount := some (estimateTokens out.compressed) })

/-- Index-ordered processing of the chapter list from index `i` on. -/
def compressChaptersAux (oracle : Nat → Except Unit CompressOut) :
    Nat → List IChapter → List (Option CompressOut × IChapter)
  | _, [] => []
  | i, ch :: rest =>
      compressChapterItem oracle i ch :: compressChaptersAux oracle (i + 1) rest

/-- The Chapter records after the stage (the store state). -/
def updatedChapters (oracle : Nat → Except Unit CompressOut)
    (chapters : List IChapter) : List IChapter :=
  (compressChaptersAux oracle 0 chapters).map (fun p => p.2)

/-- `successfulResults` (line 164): the non-`null` results. -/
def compressSuccesses (oracle : Nat → Except Unit CompressOut)
    (chapters : List IChapter) : List CompressOut :=
  (compressChaptersAux oracle 0 chapters).filterMap (fun p => p.1)

/-- The statistics `compressChapters` returns (its float
`compressionRatio` is `compressedTokens / originalTokens`, carried here
as the two integer counts). -/
structure CompressResult where
  chaptersCompressed : Nat
  originalTokens : Nat
  compressedTokens : Nat
deriving DecidableEq, Repr

/-- `compressChapters` (lines 35–186): throws on an empty chapter list,
otherwise processes every chapter and *returns normally* whatever the
per-chapter outcomes were. -/
def compressChapters (oracle : Nat → Except Unit CompressOut)
    (chapters : List IChapter) : Except Str (CompressResult × List IChapter) :=
  if chapters.length = 0 then Except.error "No chapters found for this book".data
  else
    Except.ok
      ({ chaptersCompressed := (compressSuccesses oracle chapters).length
         originalTokens := (chapters.map (fun ch => ch.originalTokenCount)).sum
         compressedTokens :=
           ((compressSuccesses oracle chapters).map
             (fun o => estimateTokens o.compressed)).sum },
       updatedChapters oracle chapters)

/-- The store filter of `assembleBook` (lines 201–204):
`compressedContent: { $exists: true, $ne: "" }`. -/
def hasCompressedContent (ch : IChapter) : Bool :=
  match ch.compressedContent with
  | some s => !s.isEmpty
  | none => false

/-- The chapter list handed to `buildBookAssemblyPrompt` (lines 214–218):
title, `compressedContent || ""`, `keyInsights || []` of each chapter
that passed the store filter. -/
def promptChaptersOf (chapters : List IChapter) : List (Str × Str × List Str) :=
  (chapters.filter hasCompressedContent).map
    (fun ch => (ch.title, ch.compressedContent.getD [], ch.keyInsights))

/-- JavaScript `s.split(/\s+/)` (keeping the empty edge pieces JS
produces before a leading and after a trailing separator). -/
def jsSplitWsGo : Bool → Str → Str → List Str
  | _, acc, [] => [acc.reverse]
  | inSep, acc, c :: rest =>
      if jsIsSpace c then
        if inSep then jsSplitWsGo true acc rest
        else acc.reverse :: jsSplitWsGo true [] rest
      else jsSplitWsGo false (c :: acc) rest

def jsSplitWs (s : Str) : List Str := jsSplitWsGo false [] s

/-- `wordCount / (book.originalWordCount || wordCount)`: JS `||` falls
back when the stored count is missing *or zero*. -/
def jsOrFallback (owc : Option Nat) (wc : Nat) : Nat :=
  match owc with
  | some n => if n = 0 then wc else n
  | none => wc

/-- `assembleBook` (lines 191–260): loads the chapters passing the
compressed-content filter, throws when there are none, and otherwise
upserts the FinalOutput built from the assembly LLM reply `llmMarkdown`
with `ideaCount` equal to the number of *filtered* chapters. -/
def assembleBook (chapters : List IChapter) (llmMarkdown : Str)
    (originalWordCount : Option Nat) : Except Str FinalOutputRec :=
  let compressed := chapters.filter hasCompressedContent
  if compressed.length = 0 then Except.error "No compressed chapters found".data
  else
    Except.ok
      { markdown := llmMarkdown
        wordCount := (jsSplitWs llmMarkdown).length
        ideaCount := compressed.length
        compressionRatio :=
          some (((jsSplitWs llmMarkdown).length : Rat) /
            (jsOrFallback originalWordCount (jsSplitWs llmMarkdown).length : Rat)) }

/-- Number of indices in `[i, i + n)` at which the oracle succeeds. -/
def countOk (oracle : Nat → Except Unit CompressOut) : Nat → Nat → Nat
  | _, 0 => 0
  | i, n + 1 => (if (oracle i).isOk then 1 else 0) + countOk oracle (i + 1) n

lemma compressChaptersAux_length (oracle : Nat → Except Unit CompressOut)
    (chs : List IChapter) : ∀ i, (compressChaptersAux oracle i chs).length = chs.length := by
  induction chs with
  | nil => intro i; rfl
  | cons ch rest ih =>
    intro i
    simp [compressChaptersAux, ih]

lemma compressSuccessesAux_length (oracle : Nat → Except Unit CompressOut)
    (chs : List IChapter) :
    ∀ i, ((compressChaptersAux oracle i chs).filterMap (fun p => p.1)).length =
      countOk oracle i chs.length := by
  induction chs with
  | nil => intro i; rfl
  | cons ch rest ih =>
    intro i
    simp only [compressChaptersAux, List.length_cons, countOk]
    cases horacle : oracle i with
    | error e =>
      have : compressChapterItem oracle i ch = (none, ch) := by
        simp [compressChapterItem, horacle]
      simp [this, List.filterMap_cons, ih (i + 1), horacle, Except.isOk, Except.toBool]
    | ok out =>
      have : (compressChapterItem oracle i ch).1 = some out := by
        simp [compressChapterItem, horacle]
      simp [List.filterMap_cons, this, ih (i + 1), horacle, Except.isOk, Except.toBool]
      omega

lemma updatedFilter_length (oracle : Nat → Except Unit CompressOut)
    (chs : List IChapter)
    (hok : ∀ k out, oracle k = Except.ok out → out.compressed ≠ []) :
    ∀ i, (∀ ch ∈ chs, ch.compressedContent = none) →
      (((compressChaptersAux oracle i chs).map (fun p => p.2)).filter
        hasCompressedContent).length = countOk oracle i chs.length := by
  induction chs with
  | nil => intro i _; rfl
  | cons ch rest ih =>
    intro i hfresh
    have hfr : ch.compressedContent = none := hfresh ch (List.mem_cons_self ch rest)
    have hrest := fun c hc => hfresh c (List.mem_cons_of_mem ch hc)
    simp only [compressChaptersAux, List.length_cons, countOk, List.map_cons]
    cases horacle : oracle i with
    | error e =>
      have hitem : compressChapterItem oracle i ch = (none, ch) := by
        simp [compressChapterItem, horacle]
      have hfalse : hasCompressedContent ch = false := by
        simp [hasCompressedContent, hfr]
      simp [hitem, List.filter_cons, hfalse, ih (i + 1) hrest, horacle, Except.isOk, Except.toBool]
    | ok out =>
      have hne : out.compressed ≠ [] := hok i out horacle
      have hitem : (compressChapterItem oracle i ch).2 =
          { ch with compressedContent := some out.compressed
                    keyInsights := out.insights
                    compressedTokenCount := some (estimateTokens out.compressed) } := by
        simp [compressChapterItem, horacle]
      have htrue : hasCompressedContent (compressChapterItem oracle i ch).2 = true := by
        rw [hitem]
        simp [hasCompressedContent, List.isEmpty_iff, hne]
      simp [List.filter_cons, htrue, ih (i + 1) hrest, horacle, Except.isOk, Except.toBool]
      omega

lemma updated_get_of_error (oracle : Nat → Except Unit CompressOut)
    (chs : List IChapter) :
    ∀ i k, oracle (i + k) = Except.error () →
      ((compressChaptersAux oracle i chs).map (fun p => p.2))[k]? = chs[k]? := by
  induction chs with
  | nil => intro i k _; rfl
  | cons ch rest ih =>
    intro i k herr
    cases k with
    | zero =>
      have hitem : compressChapterItem oracle i ch = (none, ch) := by
        simp [compressChapterItem, show oracle i = Except.error () by simpa using herr]
      simp [compressChaptersAux, hitem]
    | succ k =>
      have herr2 : oracle ((i + 1) + k) = Except.error () := by
        have : (i + 1) + k = i + (k + 1) := by omega
        rw [this]; exact herr
      simp [compressChaptersAux, ih (i + 1) k herr2]

lemma countOk_le (oracle : Nat → Except Unit CompressOut) :
    ∀ n i, countOk oracle i n ≤ n := by
  intro n
  induction n with
  | zero => intro i; exact Nat.le_refl 0
  | succ n ih =>
    intro i
    simp only [countOk]
    have := ih (i + 1)
    split <;> omega

lemma countOk_lt_of_error (oracle : Nat → Except Unit CompressOut) :
    ∀ n i k, k < n → oracle (i + k) = Except.error () → countOk oracle i n < n := by
  intro n
  induction n with
  | zero => intro i k hk _; exact absurd hk (Nat.not_lt_zero k)
  | succ n ih =>
    intro i k hk herr
    simp only [countOk]
    cases k with
    | zero =>
      have hofalse : (oracle i).isOk = false := by
        simp [show oracle i = Except.error () by simpa using herr, Except.isOk, Except.toBool]
      have hle := countOk_le oracle n (i + 1)
      rw [hofalse, show (if (false = true) then 1 else 0) = 0 from rfl]
      omega
    | succ k =>
      have herr2 : oracle ((i + 1) + k) = Except.error () := by
        have : (i + 1) + k = i + (k + 1) := by omega
        rw [this]; exact herr
      have := ih (i + 1) k (by omega) herr2
      split <;> omega

lemma countOk_pos_of_ok (oracle : Nat → Except Unit CompressOut) :
    ∀ n i k, k < n → (oracle (i + k)).isOk = true → 1 ≤ countOk oracle i n := by
  intro n
  induction n with
  | zero => intro i k hk _; exact absurd hk (Nat.not_lt_zero k)
  | succ n ih =>
    intro i k hk hok
    simp only [countOk]
    cases k with
    | zero =>
      rw [show (oracle i).isOk = true by simpa using hok,
        show (if (true = true) then 1 else 0) = 1 from rfl]
      omega
    | succ k =>
      have hok2 : (oracle ((i + 1) + k)).isOk = true := by
        have : (i + 1) + k = i + (k + 1) := by omega
        rw [this]; exact hok
      have := ih (i + 1) k (by omega) hok2
      split <;> omega

/-- C10: in the chapters pipeline, a Chapter whose compression fails is
silently omitted.  For every oracle and fresh chapter list (no
`compressedContent` yet, successful compressions nonempty) with a failing
index `i` and a succeeding index `j`: `compressChapters` still returns
normally; its `chaptersCompressed` counts only the successes; the failed
chapter's record — slot `i` of the stage's store state — is exactly the
original record, its `compressedContent` still unset; `assembleBook`
succeeds, builds its prompt from precisely the successfully compressed
chapters, and sets `ideaCount` to their number, which is strictly below
the book's total chapter count. -/
theorem compressChapters_silent_omission
    (oracle : Nat → Except Unit CompressOut) (chapters : List IChapter)
    (llm : Str) (owc : Option Nat)
    (hfresh : ∀ ch ∈ chapters, ch.compressedContent = none)
    (hok : ∀ k out, oracle k = Except.ok out → out.compressed ≠ [])
    (i j : Nat) (hi : i < chapters.length) (hj : j < chapters.length)
    (hierr : oracle i = Except.error ()) (hjok : (oracle j).isOk = true) :
    compressChapters oracle chapters =
      Except.ok
        ({ chaptersCompressed := countOk oracle 0 chapters.length
           originalTokens := (chapters.map (fun ch => ch.originalTokenCount)).sum
           compressedTokens :=
             ((compressSuccesses oracle chapters).map
               (fun o => estimateTokens o.compressed)).sum },
         updatedChapters oracle chapters) ∧
    (updatedChapters oracle chapters)[i]? = chapters[i]? ∧
    countOk oracle 0 chapters.length < chapters.length ∧
    1 ≤ countOk oracle 0 chapters.length ∧
    (promptChaptersOf (updatedChapters oracle chapters)).length =
      countOk oracle 0 chapters.length ∧
    assembleBook (updatedChapters oracle chapters) llm owc =
      Except.ok
        { markdown := llm
          wordCount := (jsSplitWs llm).length
          ideaCount := countOk oracle 0 chapters.length
          compressionRatio :=
            some (((jsSplitWs llm).length : Rat) /
              (jsOrFallback owc (jsSplitWs llm).length : Rat)) } := by
  have hlen0 : chapters.length ≠ 0 := by omega
  have hsucc : (compressSuccesses oracle chapters).length = countOk oracle 0 chapters.length :=
    compressSuccessesAux_length oracle chapters 0
  have hfilter : ((updatedChapters oracle chapters).filter hasCompressedContent).length =
      countOk oracle 0 chapters.length :=
    updatedFilter_length oracle chapters hok 0 hfresh
  have hlt : countOk oracle 0 chapters.length < chapters.length :=
    countOk_lt_of_error oracle chapters.length 0 i hi (by simpa using hierr)
  have hpos : 1 ≤ countOk oracle 0 chapters.length :=
    countOk_pos_of_ok oracle chapters.length 0 j hj (by simpa using hjok)
  refine ⟨?_, ?_, hlt, hpos, ?_, ?_⟩
  · simp only [compressChapters, hlen0, if_false, hsucc]
  · exact updated_get_of_error oracle chapters 0 i (by simpa using hierr)
  · simp only [promptChaptersOf, List.length_map, hfilter]
  · simp only [assembleBook, hfilter]
    rw [if_neg (by omega)]

/-- Two fresh chapters for the C10 witness. -/
def demoChapter (k : Nat) : IChapter :=
  { order := k
    title := "T".data
    level := 1
    originalContent := "body".data
    originalTokenCount := 1
    compressedContent := none
    keyInsights := []
    compressedTokenCount := none }

/-- Oracle for the C10 witness: chapter 0 fails, chapter 1 succeeds. -/
def demoOracle : Nat → Except Unit CompressOut :=
  fun k => if k = 1 then Except.ok ⟨"ok".data, []⟩ else Except.error ()

theorem compressChapters_silent_omission_witness :
    (compressChapters demoOracle [demoChapter 0, demoChapter 1]).isOk = true ∧
    (updatedChapters demoOracle [demoChapter 0, demoChapter 1])[0]? =
      some (demoChapter 0) ∧
    countOk demoOracle 0 2 = 1 ∧
    assembleBook (updatedChapters demoOracle [demoChapter 0, demoChapter 1])
        "a b".data (some 50) =
      Except.ok
        { markdown := "a b".data
          wordCount := 2
          ideaCount := 1
          compressionRatio := some ((2 : Rat) / (50 : Rat)) } := by
  have hfresh : ∀ ch ∈ [demoChapter 0, demoChapter 1], ch.compressedContent = none := by
    intro ch hch
    rcases List.mem_cons.mp hch with h | h
    · rw [h]; rfl
    · rcases List.mem_cons.mp h with h2 | h2
      · rw [h2]; rfl
      · cases h2
  have hok : ∀ k out, demoOracle k = Except.ok out → out.compressed ≠ [] := by
    intro k out h
    by_cases hk : k = 1
    · rw [demoOracle] at h
      rw [if_pos hk] at h
      cases h
      decide
    · rw [demoOracle] at h
      rw [if_neg hk] at h
      cases h
  have h := compressChapters_silent_omission demoOracle [demoChapter 0, demoChapter 1]
    "a b".data (some 50) hfresh hok 0 1 (by decide) (by decide) (by rfl) (by rfl)
  refine ⟨by rw [h.1]; rfl, ?_, by rfl, ?_⟩
  · rw [h.2.1]; rfl
  · rw [h.2.2.2.2.2]
    congr 1

/-! ## The chunker (src/lib/chunker.ts)

`chunkText(text, {minTokens, maxTokens})` splits the text on runs of two
or more newlines into trimmed nonempty paragraphs, then accumulates them
under the token budget; a paragraph whose own estimate exceeds
`maxTokens` is sentence-split and packed separately; a trailing
under-`minTokens` chunk is merged back into the previous chunk when the
combined count stays within `1.2 × maxTokens` (the float comparison
`a + b <= maxTokens * 1.2` on integer counts is modelled exactly as
`10 * (a + b) ≤ 12 * maxTokens`). -/

structure Chunk where
  order : Nat
  text : Str
  tokenCount : Nat
deriving DecidableEq, Repr

structure ChunkerOptions where
  minTokens : Nat
  maxTokens : Nat
  overlapTokens : Nat
deriving DecidableEq, Repr

/-- `DEFAULT_OPTIONS` of chunker.ts. -/
def defaultChunkerOptions : ChunkerOptions :=
  { minTokens := 800, maxTokens := 1500, overlapTokens := 100 }

/-- `text.split(/\n{2,}/)`: pieces separated by runs of two or more
newlines; a single newline stays inside its piece.  `inSep` is true while
scanning the remainder of a separator run. -/
def splitParasGo : Bool → Str → Str → List Str
  | _, acc, [] => [acc.reverse]
  | true, acc, c :: rest =>
      if c = '\n' then splitParasGo true acc rest
      else splitParasGo false (c :: acc) rest
  | false, acc, c :: rest =>
      if c = '\n' then
        match rest with
        | [] => [(c :: acc).reverse]
        | d :: rest2 =>
          if d = '\n' then acc.reverse :: splitParasGo true [] rest2
          else splitParasGo false (c :: acc) (d :: rest2)
      else splitParasGo false (c :: acc) rest

/-- Lines 30–33: split, trim each piece, drop empties. -/
def splitParagraphs (text : Str) : List Str :=
  ((splitParasGo false [] text).map jsTrim).filter (fun p => decide (0 < p.length))

/-- Does the accumulated piece end in sentence punctuation? -/
def headIsSentencePunct (acc : Str) : Bool :=
  match acc.head? with
  | some c => c = '.' || c = '!' || c = '?'
  | none => false

/-- `splitIntoSentences` scanner for the regex
`(?<=[.!?])\s+(?=[A-Z])`: a whitespace run directly after `.`/`!`/`?`
and directly before an ASCII uppercase letter separates sentences (and is
dropped); any other whitespace stays in place.  `acc` is the current
piece reversed; `wsBuf` (nonempty exactly while a candidate whitespace
run after punctuation is pending) is that run reversed. -/
def splitSentGo : Str → Str → Str → List Str
  | acc, wsBuf, [] => [(wsBuf ++ acc).reverse]
  | acc, [], c :: rest =>
      if jsIsSpace c && headIsSentencePunct acc then splitSentGo acc [c] rest
      else splitSentGo (c :: acc) [] rest
  | acc, w :: ws, c :: rest =>
      if jsIsSpace c then splitSentGo acc (c :: w :: ws) rest
      else if c.isUpper then acc.reverse :: splitSentGo [c] [] rest
      else splitSentGo (c :: (w :: ws ++ acc)) [] rest

/-- `splitIntoSentences` (lines 153–158). -/
def splitIntoSentences (text : Str) : List Str :=
  (splitSentGo [] [] text).filter (fun s => decide (0 < (jsTrim s).length))

/-- Unanchored substring test (a JS regex of a literal phrase). -/
def containsSub (needle : Str) : Str → Bool
  | [] => needle.isEmpty
  | c :: rest => needle.isPrefixOf (c :: rest) || containsSub needle rest

/-- `isNaturalBreakPoint` (lines 164–194): any of the ending-pattern
phrases as a substring of the lowercased paragraph (`/next,? we/` is the
two literal alternatives), or a short paragraph ending in a period. -/
def isNaturalBreakPoint (paragraph : Str) : Bool :=
  let text := lowerStr paragraph
  containsSub "in conclusion".data text ||
  containsSub "to summarize".data text ||
  containsSub "in summary".data text ||
  containsSub "the key takeaway".data text ||
  containsSub "the main point".data text ||
  containsSub "this brings us to".data text ||
  containsSub "moving on".data text ||
  (containsSub "next, we".data text || containsSub "next we".data text) ||
  containsSub "let\x27s now".data text ||
  containsSub "having established".data text ||
  (text.getLast? = some '.' && decide (text.length < 200))

/-- Chunker loop state: emitted chunks, the accumulating paragraph list,
its token count, and the running order counter. -/
structure ChunkerSt where
  chunks : List Chunk
  currentChunk : List Str
  currentTokenCount : Nat
  chunkOrder : Nat
deriving DecidableEq, Repr

/-- `chunks.push({order: chunkOrder++, text, tokenCount})`. -/
def pushChunk (st : ChunkerSt) (text : Str) (tok : Nat) : ChunkerSt :=
  { st with
      chunks := st.chunks ++ [{ order := st.chunkOrder, text := text, tokenCount := tok }]
      chunkOrder := st.chunkOrder + 1 }

def joinParas (ps : List Str) : Str := List.intercalate "\n\n".data ps

def joinSpace (ss : List Str) : Str := List.intercalate " ".data ss

/-- One iteration of the sentence-packing loop (lines 60–75); the state
is the global chunker state plus `(sentenceChunk, sentenceTokenCount)`. -/
def sentenceStep (maxTokens : Nat) (st : ChunkerSt × List Str × Nat)
    (sentence : Str) : ChunkerSt × List Str × Nat :=
  if st.2.2 + estimateTokens sentence > maxTokens ∧ st.2.1 ≠ [] then
    (pushChunk st.1 (joinSpace st.2.1) st.2.2, [sentence], estimateTokens sentence)
  else
    (st.1, st.2.1 ++ [sentence], st.2.2 + estimateTokens sentence)

/-- Lines 44–53: before sentence-splitting an oversized paragraph, any
accumulated content is emitted as-is (no minimum-size check). -/
def flushAccumulated (st : ChunkerSt) : ChunkerSt :=
  if st.currentChunk ≠ [] then
    { pushChunk st (joinParas st.currentChunk) st.currentTokenCount with
        currentChunk := [], currentTokenCount := 0 }
  else st

/-- Lines 56–83: sentence-split an oversized paragraph, pack the
sentences, and keep the remainder as the new accumulator. -/
def packSentences (opts : ChunkerOptions) (st : ChunkerSt) (p : Str) : ChunkerSt :=
  if ((splitIntoSentences p).foldl (sentenceStep opts.maxTokens) (st, [], 0)).2.1 ≠ [] then
    { ((splitIntoSentences p).foldl (sentenceStep opts.maxTokens) (st, [], 0)).1 with
        currentChunk :=
          [joinSpace ((splitIntoSentences p).foldl (sentenceStep opts.maxTokens) (st, [], 0)).2.1]
        currentTokenCount :=
          ((splitIntoSentences p).foldl (sentenceStep opts.maxTokens) (st, [], 0)).2.2 }
  else ((splitIntoSentences p).foldl (sentenceStep opts.maxTokens) (st, [], 0)).1

/-- Lines 87–98: emit the accumulator before adding a paragraph that
would overflow `maxTokens` — but only when it already has `minTokens`. -/
def maybeFlushBeforeAdd (opts : ChunkerOptions) (st : ChunkerSt) (pTokens : Nat) : ChunkerSt :=
  if st.currentTokenCount + pTokens > opts.maxTokens ∧ st.currentChunk ≠ [] then
    if st.currentTokenCount ≥ opts.minTokens then
      { pushChunk st (joinParas st.currentChunk) st.currentTokenCount with
          currentChunk := [], currentTokenCount := 0 }
    else st
  else st

/-- Lines 100–102: append the paragraph to the accumulator. -/
def addParagraph (st : ChunkerSt) (p : Str) : ChunkerSt :=
  { st with currentChunk := st.currentChunk ++ [p]
            currentTokenCount := st.currentTokenCount + estimateTokens p }

/-- Lines 104–116: emit early at a natural break inside the acceptable
window. -/
def maybeNaturalBreak (opts : ChunkerOptions) (st : ChunkerSt) (p : Str) : ChunkerSt :=
  if st.currentTokenCount ≥ opts.minTokens ∧ st.currentTokenCount ≤ opts.maxTokens ∧
      isNaturalBreakPoint p = true then
    { pushChunk st (joinParas st.currentChunk) st.currentTokenCount with
        currentChunk := [], currentTokenCount := 0 }
  else st

/-- One iteration of the main paragraph loop (lines 39–117). -/
def processParagraph (opts : ChunkerOptions) (st : ChunkerSt) (p : Str) : ChunkerSt :=
  if estimateTokens p > opts.maxTokens then
    packSentences opts (flushAccumulated st) p
  else
    maybeNaturalBreak opts (addParagraph (maybeFlushBeforeAdd opts st (estimateTokens p)) p) p

/-- The trailing-content handling (lines 119–145): merge an
under-`minTokens` remainder into the previous chunk when the combined
count stays within `1.2 × maxTokens`, else emit it as its own chunk. -/
def finalizeChunks (opts : ChunkerOptions) (st : ChunkerSt) : List Chunk :=
  if st.currentChunk = [] then st.chunks
  else if st.currentTokenCount < opts.minTokens ∧ st.chunks ≠ [] then
    match st.chunks.getLast? with
    | some last =>
        if 10 * (last.tokenCount + st.currentTokenCount) ≤ 12 * opts.maxTokens then
          st.chunks.dropLast ++
            [{ order := last.order
               text := last.text ++ "\n\n".data ++ joinParas st.currentChunk
               tokenCount := last.tokenCount + st.currentTokenCount }]
        else
          st.chunks ++ [{ order := st.chunkOrder, text := joinParas st.currentChunk
                          tokenCount := st.currentTokenCount }]
    | none =>
        st.chunks ++ [{ order := st.chunkOrder, text := joinParas st.currentChunk
                        tokenCount := st.currentTokenCount }]
  else
    st.chunks ++ [{ order := st.chunkOrder, text := joinParas st.currentChunk
                    tokenCount := st.currentTokenCount }]

/-- `chunkText` (lines 25–148). -/
def chunkText (text : Str) (opts : ChunkerOptions) : List Chunk :=
  finalizeChunks opts
    ((splitParagraphs text).foldl (processParagraph opts) ⟨[], [], 0, 0⟩)

/-- The bound the amended chunk-size claim proves:
`max (minTokens + maxTokens - 1) (floor (1.2 * maxTokens))`. -/
def chunkBound (opts : ChunkerOptions) : Nat :=
  max (opts.minTokens + opts.maxTokens - 1) ((12 * opts.maxTokens) / 10)

/-- Loop invariant of the paragraph fold: every emitted chunk is within
the bound, the running count is below `minTokens + maxTokens`, and an
empty accumulator has count zero. -/
def GoodSt (opts : ChunkerOptions) (st : ChunkerSt) : Prop :=
  (∀ ch ∈ st.chunks, ch.tokenCount ≤ chunkBound opts) ∧
  st.currentTokenCount < opts.minTokens + opts.maxTokens ∧
  (st.currentChunk = [] → st.currentTokenCount = 0)

/-- Invariant of the sentence-packing fold: chunks within the bound, the
chunker accumulator untouched (empty, zero), the sentence buffer within
`maxTokens`, an empty sentence buffer counting zero. -/
def SentInv (opts : ChunkerOptions) (x : ChunkerSt × List Str × Nat) : Prop :=
  (∀ ch ∈ x.1.chunks, ch.tokenCount ≤ chunkBound opts) ∧
  x.1.currentChunk = [] ∧ x.1.currentTokenCount = 0 ∧
  x.2.2 ≤ opts.maxTokens ∧ (x.2.1 = [] → x.2.2 = 0)

lemma maxTokens_le_chunkBound {opts : ChunkerOptions} (hmin : 1 ≤ opts.minTokens) :
    opts.maxTokens ≤ chunkBound opts :=
  le_trans (by omega) (le_max_left (opts.minTokens + opts.maxTokens - 1) _)

lemma sentenceStep_inv {opts : ChunkerOptions} {x : ChunkerSt × List Str × Nat}
    {s : Str} (hmin : 1 ≤ opts.minTokens) (hs : estimateTokens s ≤ opts.maxTokens)
    (hx : SentInv opts x) : SentInv opts (sentenceStep opts.maxTokens x s) := by
  obtain ⟨hchunks, hcc, hct, hstok, hempty⟩ := hx
  unfold sentenceStep
  split
  case isTrue hcond =>
    refine ⟨?_, hcc, hct, hs, ?_⟩
    · intro ch hch
      simp only [pushChunk] at hch
      rcases List.mem_append.mp hch with hin | hin
      · exact hchunks ch hin
      · rcases List.mem_singleton.mp hin with rfl
        exact le_trans hstok (maxTokens_le_chunkBound hmin)
    · intro hc
      cases hc
  case isFalse hcond =>
    refine ⟨hchunks, hcc, hct, ?_, ?_⟩
    · show x.2.2 + estimateTokens s ≤ opts.maxTokens
      by_cases hnil : x.2.1 = []
      · rw [hempty hnil]
        simpa using hs
      · rcases not_and_or.mp hcond with h | h
        · omega
        · exact absurd hnil (by simpa using h)
    · intro hc
      simp at hc

lemma sentenceFold_inv {opts : ChunkerOptions} (hmin : 1 ≤ opts.minTokens) :
    ∀ (sentences : List Str),
      (∀ s ∈ sentences, estimateTokens s ≤ opts.maxTokens) →
      ∀ x, SentInv opts x →
        SentInv opts (sentences.foldl (sentenceStep opts.maxTokens) x) := by
  intro sentences
  induction sentences with
  | nil => intro _ x hx; exact hx
  | cons s tl ih =>
    intro hs x hx
    simp only [List.foldl_cons]
    exact ih (fun t ht => hs t (List.mem_cons_of_mem s ht))
      _ (sentenceStep_inv hmin (hs s (List.mem_cons_self s tl)) hx)

lemma flushAccumulated_inv {opts : ChunkerOptions} (hmin : 1 ≤ opts.minTokens)
    {st : ChunkerSt} (hst : GoodSt opts st) :
    SentInv opts (flushAccumulated st, ([] : List Str), 0) := by
  obtain ⟨hchunks, hcount, hempty⟩ := hst
  unfold flushAccumulated
  split
  case isTrue hne =>
    refine ⟨?_, rfl, rfl, Nat.zero_le _, fun _ => rfl⟩
    intro ch hch
    simp only [pushChunk] at hch
    rcases List.mem_append.mp hch with hin | hin
    · exact hchunks ch hin
    · rcases List.mem_singleton.mp hin with rfl
      show st.currentTokenCount ≤ chunkBound opts
      exact le_trans (by omega) (le_max_left (opts.minTokens + opts.maxTokens - 1) _)
  case isFalse hne =>
    rw [not_not] at hne
    exact ⟨hchunks, hne, hempty hne, Nat.zero_le _, fun _ => rfl⟩

lemma packSentences_good {opts : ChunkerOptions} (hmin : 1 ≤ opts.minTokens)
    {st : ChunkerSt} {p : Str}
    (hp : ∀ s ∈ splitIntoSentences p, estimateTokens s ≤ opts.maxTokens)
    (hchunks : ∀ ch ∈ st.chunks, ch.tokenCount ≤ chunkBound opts)
    (hcc : st.currentChunk = []) (hct : st.currentTokenCount = 0) :
    GoodSt opts (packSentences opts st p) := by
  have hbase : SentInv opts (st, ([] : List Str), 0) :=
    ⟨hchunks, hcc, hct, Nat.zero_le _, fun _ => rfl⟩
  have hpacked := sentenceFold_inv hmin (splitIntoSentences p) hp _ hbase
  obtain ⟨hpc, hpcc, hpct, hpstok, hpempty⟩ := hpacked
  unfold packSentences
  split
  case isTrue hne =>
    refine ⟨hpc, ?_, ?_⟩
    · show ((splitIntoSentences p).foldl (sentenceStep opts.maxTokens) (st, [], 0)).2.2 <
        opts.minTokens + opts.maxTokens
      omega
    · intro hc
      cases hc
  case isFalse hne =>
    refine ⟨hpc, ?_, fun _ => hpct⟩
    show ((splitIntoSentences p).foldl (sentenceStep opts.maxTokens) (st, [], 0)).1.currentTokenCount <
      opts.minTokens + opts.maxTokens
    rw [hpct]
    omega

lemma maybeFlushBeforeAdd_good {opts : ChunkerOptions} (hmin : 1 ≤ opts.minTokens)
    {st : ChunkerSt} {pTokens : Nat} (hpt : pTokens ≤ opts.maxTokens)
    (hst : GoodSt opts st) :
    (∀ ch ∈ (maybeFlushBeforeAdd opts st pTokens).chunks, ch.tokenCount ≤ chunkBound opts) ∧
    (maybeFlushBeforeAdd opts st pTokens).currentTokenCount + pTokens <
      opts.minTokens + opts.maxTokens := by
  obtain ⟨hchunks, hcount, hempty⟩ := hst
  unfold maybeFlushBeforeAdd
  split
  case isTrue hcond =>
    split
    case isTrue hge =>
      constructor
      · intro ch hch
        simp only [pushChunk] at hch
        rcases List.mem_append.mp hch with hin | hin
        · exact hchunks ch hin
        · rcases List.mem_singleton.mp hin with rfl
          show st.currentTokenCount ≤ chunkBound opts
          exact le_trans (by omega) (le_max_left (opts.minTokens + opts.maxTokens - 1) _)
      · show 0 + pTokens < opts.minTokens + opts.maxTokens
        omega
    case isFalse hge => exact ⟨hchunks, by omega⟩
  case isFalse hcond =>
    refine ⟨hchunks, ?_⟩
    rcases not_and_or.mp hcond with h | h
    · omega
    · rw [not_not] at h
      rw [hempty h]
      omega

lemma processParagraph_good {opts : ChunkerOptions} (hmin : 1 ≤ opts.minTokens)
    {st : ChunkerSt} {p : Str}
    (hp : estimateTokens p > opts.maxTokens →
      ∀ s ∈ splitIntoSentences p, estimateTokens s ≤ opts.maxTokens)
    (hst : GoodSt opts st) : GoodSt opts (processParagraph opts st p) := by
  unfold processParagraph
  split
  case isTrue hbig =>
    obtain ⟨hfc, hfcc, hfct, _, _⟩ := flushAccumulated_inv hmin hst
    exact packSentences_good hmin (hp hbig) hfc hfcc hfct
  case isFalse hsmall =>
    have hpt : estimateTokens p ≤ opts.maxTokens := by omega
    have hflushed := maybeFlushBeforeAdd_good hmin hpt hst
    obtain ⟨hg1, hg2⟩ := hflushed
    unfold maybeNaturalBreak addParagraph
    split
    case isTrue hbreak =>
      refine ⟨?_, ?_, fun _ => rfl⟩
      · intro ch hch
        simp only [pushChunk] at hch
        rcases List.mem_append.mp hch with hin | hin
        · exact hg1 ch hin
        · rcases List.mem_singleton.mp hin with rfl
          show (maybeFlushBeforeAdd opts st (estimateTokens p)).currentTokenCount +
            estimateTokens p ≤ chunkBound opts
          have hb := hbreak.2.1
          exact le_trans hb (maxTokens_le_chunkBound hmin)
      · show (0 : Nat) < opts.minTokens + opts.maxTokens
        omega
    case isFalse hbreak =>
      refine ⟨hg1, hg2, ?_⟩
      intro hc
      simp at hc

lemma finalizeChunks_good {opts : ChunkerOptions} (hmin : 1 ≤ opts.minTokens)
    {st : ChunkerSt} (hst : GoodSt opts st) :
    ∀ ch ∈ finalizeChunks opts st, ch.tokenCount ≤ chunkBound opts := by
  obtain ⟨hchunks, hcount, _⟩ := hst
  have hpush : st.currentTokenCount ≤ chunkBound opts :=
    le_trans (by omega) (le_max_left (opts.minTokens + opts.maxTokens - 1) _)
  unfold finalizeChunks
  split
  case isTrue => exact hchunks
  case isFalse =>
    split
    case isTrue hsmall =>
      cases hlast : st.chunks.getLast? with
      | none =>
        intro ch hch
        dsimp only at hch
        rcases List.mem_append.mp hch with hin | hin
        · exact hchunks ch hin
        · rcases List.mem_singleton.mp hin with rfl
          exact hpush
      | some last =>
        intro ch hch
        dsimp only at hch
        by_cases hmerge : 10 * (last.tokenCount + st.currentTokenCount) ≤ 12 * opts.maxTokens
        · rw [if_pos hmerge] at hch
          rcases List.mem_append.mp hch with hin | hin
          · exact hchunks ch (List.dropLast_subset st.chunks hin)
          · rcases List.mem_singleton.mp hin with rfl
            show last.tokenCount + st.currentTokenCount ≤ chunkBound opts
            refine le_trans ?_ (le_max_right (opts.minTokens + opts.maxTokens - 1) _)
            rw [Nat.le_div_iff_mul_le (by norm_num)]
            omega
        · rw [if_neg hmerge] at hch
          rcases List.mem_append.mp hch with hin | hin
          · exact hchunks ch hin
          · rcases List.mem_singleton.mp hin with rfl
            exact hpush
    case isFalse =>
      intro ch hch
      rcases List.mem_append.mp hch with hin | hin
      · exact hchunks ch hin
      · rcases List.mem_singleton.mp hin with rfl
        exact hpush

lemma chunkFold_good {opts : ChunkerOptions} (hmin : 1 ≤ opts.minTokens) :
    ∀ (paras : List Str),
      (∀ p ∈ paras, estimateTokens p > opts.maxTokens →
        ∀ s ∈ splitIntoSentences p, estimateTokens s ≤ opts.maxTokens) →
      ∀ st, GoodSt opts st →
        GoodSt opts (paras.foldl (processParagraph opts) st) := by
  intro paras
  induction paras with
  | nil => intro _ st hst; exact hst
  | cons p tl ih =>
    intro hs st hst
    simp only [List.foldl_cons]
    exact ih (fun q hq => hs q (List.mem_cons_of_mem p hq)) _
      (processParagraph_good hmin (hs p (List.mem_cons_self p tl)) hst)

/-- C5 (amended): for every text and options with `minTokens ≥ 1`, as
long as every sentence of every oversized paragraph estimates within
`maxTokens`, every chunk emitted by `chunkText` has `tokenCount` at most
`max (minTokens + maxTokens - 1) (floor (1.2 * maxTokens))`.  The claimed
`1.2 × maxTokens` bound itself does not hold: the accumulator admits a
paragraph that overflows `maxTokens` whenever the chunk is still below
`minTokens`, and a single overlong sentence is packed unsplit (see the
counterexample). -/
theorem chunkText_token_bound (text : Str) (opts : ChunkerOptions)
    (hmin : 1 ≤ opts.minTokens)
    (hsent : ∀ p ∈ splitParagraphs text, estimateTokens p > opts.maxTokens →
      ∀ s ∈ splitIntoSentences p, estimateTokens s ≤ opts.maxTokens) :
    ∀ ch ∈ chunkText text opts, ch.tokenCount ≤ chunkBound opts := by
  unfold chunkText
  refine finalizeChunks_good hmin ?_
  refine chunkFold_good hmin (splitParagraphs text) hsent _ ?_
  exact ⟨(fun ch hch => nomatch hch), by show (0 : Nat) < opts.minTokens + opts.maxTokens; omega, fun _ => rfl⟩

/-- C5 counterexample: with `minTokens = 2`, `maxTokens = 4`, the text
`"aaaa\n\nbbbbbbbbbbbbbbbb"` (a 1-token paragraph followed by a 4-token
paragraph) produces a single chunk of 5 tokens, and `5 > 1.2 × 4`: the
second paragraph is added without a flush because the accumulator is
still below `minTokens`, so the claimed `1.2 × maxTokens` bound fails. -/
theorem chunkText_exceeds_claimed_bound :
    (chunkText "aaaa\n\nbbbbbbbbbbbbbbbb".data
        { minTokens := 2, maxTokens := 4, overlapTokens := 100 }).map
      (fun ch => ch.tokenCount) = [5] ∧
    ¬ (10 * 5 ≤ 12 * 4) := by
  exact ⟨by decide, by decide⟩

theorem chunkText_token_bound_witness :
    1 ≤ defaultChunkerOptions.minTokens ∧
    (chunkText "Hello world.".data defaultChunkerOptions).map (fun ch => ch.tokenCount) = [3] ∧
    3 ≤ chunkBound defaultChunkerOptions := by
  refine ⟨by decide, by decide, ?_⟩
  have h := chunkText_token_bound "Hello world.".data defaultChunkerOptions
    (by decide) (by decide)
  have hmem : ({ order := 0, text := "Hello world.".data, tokenCount := 3 } : Chunk) ∈
      chunkText "Hello world.".data defaultChunkerOptions := by decide
  exact h _ hmem

/-! ## The regex chapter extractor (src/unnamed/part_012)

`extractChapters(text)` scans the lines, matching each trimmed line
against the heading pattern families of `matchChapterHeading`
(`CHAPTER_PATTERNS` → level 1, `SECTION_PATTERNS` → level 2,
`SUBSECTION_PATTERNS` → level 3).  Level ≤ 2 matches start a new
chapter and bump `detectedChapters`; a 100-character floor filters tiny
chapters.  The regexes are implemented character-for-character below;
whole-line anchored word-shaped patterns (`SECTION_PATTERNS`,
`SUBSECTION_PATTERNS`) are decided on the whitespace-run decomposition
`jsSplitWs`, which is exactly the anchored regex's decomposition. -/

/-- `text.split("\n")`. -/
def splitLinesGo : Str → Str → List Str
  | acc, [] => [acc.reverse]
  | acc, c :: rest =>
      if c = '\n' then acc.reverse :: splitLinesGo [] rest
      else splitLinesGo (c :: acc) rest

def splitLines (text : Str) : List Str := splitLinesGo [] text

/-- Case-insensitive literal prefix; on success returns the remainder of
the original-case string. -/
def matchCIPrefix (pat s : Str) : Option Str :=
  if (lowerStr pat).isPrefixOf (lowerStr s) then some (s.drop pat.length) else none

/-- The separator class `[\s:.\-–—]` of the chapter patterns. -/
def sepWithColon (c : Char) : Bool :=
  jsIsSpace c || c = ':' || c = '.' || c = '-' || c = '–' || c = '—'

/-- The separator class `[\s.\-–—]` of the numbered pattern (no colon). -/
def sepNoColon (c : Char) : Bool :=
  jsIsSpace c || c = '.' || c = '-' || c = '–' || c = '—'

def numberWordsTwelve : List Str :=
  ["one", "two", "three", "four", "five", "six", "seven", "eight", "nine",
   "ten", "eleven", "twelve"].map String.data

def numberWordsTen : List Str :=
  ["one", "two", "three", "four", "five", "six", "seven", "eight", "nine",
   "ten"].map String.data

/-- First number-word of the alternation that is a case-insensitive
prefix; returns the remainder. -/
def tryNumberWords (words : List Str) (s : Str) : Option Str :=
  match words with
  | [] => none
  | w :: ws =>
    match matchCIPrefix w s with
    | some r => some r
    | none => tryNumberWords ws s

/-- `(?:\d+|one|…|twelve)` with the regex's greedy/ordered semantics. -/
def parseNumberP1 (s : Str) : Option Str :=
  match s with
  | [] => none
  | c :: _ =>
    if c.isDigit then some (s.dropWhile Char.isDigit)
    else tryNumberWords numberWordsTwelve s

def isIVX (c : Char) : Bool :=
  c.toLower = 'i' || c.toLower = 'v' || c.toLower = 'x'

/-- `(?:[IVX]+|\d+|one|…|ten)` (case-insensitive). -/
def parseNumberP2 (s : Str) : Option Str :=
  match s with
  | [] => none
  | c :: _ =>
    if isIVX c then some (s.dropWhile isIVX)
    else if c.isDigit then some (s.dropWhile Char.isDigit)
    else tryNumberWords numberWordsTen s

/-- The continuation `\s*(number)[\s:.\-–—]*(.*)$` shared by the
chapter patterns; returns the `(.*)` capture. -/
def chapterTailP1 (rest : Str) : Option Str :=
  (parseNumberP1 (rest.dropWhile jsIsSpace)).map (fun r => r.dropWhile sepWithColon)

/-- `CHAPTER_PATTERNS[0]`:
`^(?:chapter|ch\.?)\s*(?:\d+|one|…|twelve)[\s:.\-–—]*(.*)$/i` with the
regex's alternation order (`chapter`, then `ch.`, then `ch`). -/
def matchP1 (line : Str) : Option Str :=
  match matchCIPrefix "chapter".data line with
  | some rest =>
    match chapterTailP1 rest with
    | some cap => some cap
    | none => matchP1Short line
  | none => matchP1Short line
where
  matchP1Short (line : Str) : Option Str :=
    match matchCIPrefix "ch.".data line with
    | some rest =>
      match chapterTailP1 rest with
      | some cap => some cap
      | none => matchP1Ch line
    | none => matchP1Ch line
  matchP1Ch (line : Str) : Option Str :=
    match matchCIPrefix "ch".data line with
    | some rest => chapterTailP1 rest
    | none => none

/-- `CHAPTER_PATTERNS[1]`:
`^(?:part)\s*(?:[IVX]+|\d+|one|…|ten)[\s:.\-–—]*(.*)$/i`. -/
def matchP2 (line : Str) : Option Str :=
  match matchCIPrefix "part".data line with
  | some rest =>
    (parseNumberP2 (rest.dropWhile jsIsSpace)).map (fun r => r.dropWhile sepWithColon)
  | none => none

/-- `CHAPTER_PATTERNS[2]`: `^(\d{1,2})[\s.\-–—]+([A-Z][^.!?]*?)$`
(case-sensitive); returns the second capture. -/
def matchP3 (line : Str) : Option Str :=
  match line with
  | [] => none
  | c :: _ =>
    if c.isDigit then
      if (line.takeWhile Char.isDigit).length ≤ 2 then
        match line.dropWhile Char.isDigit with
        | [] => none
        | r :: rs =>
          if sepNoColon r then
            match (r :: rs).dropWhile sepNoColon with
            | [] => none
            | t :: ts =>
              if t.isUpper && ts.all (fun d => !(d = '.' || d = '!' || d = '?')) then
                some (t :: ts)
              else none
          else none
      else none
    else none

/-- `CHAPTER_PATTERNS[3]`: `^(?:section)\s*(?:\d+)[\s:.\-–—]*(.*)$/i`. -/
def matchP4 (line : Str) : Option Str :=
  match matchCIPrefix "section".data line with
  | some rest =>
    match rest.dropWhile jsIsSpace with
    | [] => none
    | c :: cs =>
      if c.isDigit then some (((c :: cs).dropWhile Char.isDigit).dropWhile sepWithColon)
      else none
  | none => none

/-- `SECTION_PATTERNS[0]`: `^([A-Z]{2,}(?:\s+[A-Z]{2,})+)$` — at least
two words of at least two ASCII capitals, separated by whitespace runs. -/
def matchesS1 (line : Str) : Bool :=
  let toks := jsSplitWs line
  decide (2 ≤ toks.length) &&
    toks.all (fun t => decide (2 ≤ t.length) && t.all Char.isUpper)

/-- `SECTION_PATTERNS[1]`: `^([A-Z]{5,})$`. -/
def matchesS2 (line : Str) : Bool :=
  decide (5 ≤ line.length) && line.all Char.isUpper

/-- A `[A-Z][a-z]+` word. -/
def isCapWord (t : Str) : Bool :=
  match t with
  | [] => false
  | c :: cs => c.isUpper && decide (cs ≠ []) && cs.all Char.isLower

/-- A `[a-z]+` word (which subsumes the listed literal words
`to|of|the|a|an|in|on|for|with|by|is|are`). -/
def isLowerWord (t : Str) : Bool :=
  decide (t ≠ []) && t.all Char.isLower

/-- `SUBSECTION_PATTERNS[0]`:
`^([A-Z][a-z]+(?:\s+(?:[A-Z][a-z]+|[a-z]+|to|of|…|are))+)$`. -/
def matchesSub (line : Str) : Bool :=
  match jsSplitWs line with
  | [] => false
  | t0 :: ts =>
    decide (ts ≠ []) && isCapWord t0 && ts.all (fun t => isCapWord t || isLowerWord t)

/-- `line.match(/[.!?]$/)`. -/
def endsSentencePunct (line : Str) : Bool :=
  match line.getLast? with
  | some c => c = '.' || c = '!' || c = '?'
  | none => false

/-- `title = match[2] || match[1] || line; title = title.trim();
if (!title) title = line` for the single-capture chapter patterns. -/
def titleFromCapture (cap line : Str) : Str :=
  let t0 := if cap ≠ [] then cap else line
  let t1 := jsTrim t0
  if t1 = [] then line else t1

/-- `matchChapterHeading` (part_012 lines 223–271). -/
def matchChapterHeading (line : Str) : Option (Str × Nat) :=
  if 100 < line.length then none
  else if endsSentencePunct line && decide (50 < line.length) then none
  else
    match matchP1 line with
    | some cap => some (titleFromCapture cap line, 1)
    | none =>
      match matchP2 line with
      | some cap => some (titleFromCapture cap line, 1)
      | none =>
        match matchP3 line with
        | some t => some (jsTrim t, 1)
        | none =>
          match matchP4 line with
          | some cap => some (titleFromCapture cap line, 1)
          | none =>
            if matchesS1 line && decide (5 ≤ (jsTrim line).length) &&
                decide ((jsTrim line).length ≤ 60) then
              some (jsTrim line, 2)
            else if matchesS2 line && decide (5 ≤ (jsTrim line).length) &&
                decide ((jsTrim line).length ≤ 60) then
              some (jsTrim line, 2)
            else if matchesSub line &&
                decide (2 ≤ (jsSplitWs (jsTrim line)).length) &&
                decide ((jsSplitWs (jsTrim line)).length ≤ 8) &&
                decide ((jsTrim line).length ≤ 60) then
              some (jsTrim line, 3)
            else none

/-- An extracted chapter (`Chapter` interface of part_012). -/
structure Chapter where
  order : Nat
  title : Str
  level : Nat
  content : Str
  tokenCount : Nat
deriving DecidableEq, Repr

inductive ExtractionMethod where
  | toc
  | regex
  | artificial
deriving DecidableEq, Repr

structure BookStructure where
  chapters : List Chapter
  hasDetectedStructure : Bool
  extractionMethod : ExtractionMethod
deriving DecidableEq, Repr

/-- The in-progress chapter of the line scan (`currentChapter`; its
`startLine` field is written but never read and is omitted). -/
structure CurChap where
  title : Str
  level : Nat
  content : List Str
deriving DecidableEq, Repr

/-- Line-scan state: saved chapters, current chapter, detected count. -/
structure ExtractSt where
  chapters : List Chapter
  currentChapter : Option CurChap
  detectedChapters : Nat
deriving DecidableEq, Repr

/-- Saving `currentChapter` (lines 75–86 and 121–132): only when it has
content whose trimmed newline-join exceeds 100 characters. -/
def saveChapter (chapters : List Chapter) (cur : CurChap) : List Chapter :=
  if cur.content ≠ [] then
    if 100 < (jsTrim (List.intercalate "\n".data cur.content)).length then
      chapters ++
        [{ order := chapters.length
           title := cur.title
           level := cur.level
           content := jsTrim (List.intercalate "\n".data cur.content)
           tokenCount := estimateTokens (jsTrim (List.intercalate "\n".data cur.content)) }]
    else chapters
  else chapters

/-- The body of the line loop (lines 64–118). -/
def processLine (st : ExtractSt) (rawLine : Str) : ExtractSt :=
  let line := jsTrim rawLine
  if line = [] then st
  else
    match matchChapterHeading line with
    | some tl =>
      if tl.2 ≤ 2 then
        { chapters :=
            (match st.currentChapter with
             | some cur => saveChapter st.chapters cur
             | none => st.chapters)
          currentChapter := some ⟨tl.1, tl.2, []⟩
          detectedChapters := st.detectedChapters + 1 }
      else
        match st.currentChapter with
        | some cur =>
          { st with
              currentChapter :=
                some { cur with content := cur.content ++ ["\n### ".data ++ tl.1 ++ "\n".data] } }
        | none =>
          { st with currentChapter := some ⟨"Introduction".data, 1, [line]⟩ }
    | none =>
      match st.currentChapter with
      | some cur =>
        { st with currentChapter := some ({ cur with content := cur.content ++ [line] }) }
      | none =>
        { st with currentChapter := some ⟨"Introduction".data, 1, [line]⟩ }

/-- The final save of `currentChapter` after the loop (lines 121–132). -/
def finishScan (st : ExtractSt) : List Chapter :=
  match st.currentChapter with
  | some cur => saveChapter st.chapters cur
  | none => st.chapters

/-- The scan plus the trailing save: the chapter list before oversize
splitting, and `detectedChapters`. -/
def extractRaw (text : Str) : List Chapter × Nat :=
  (finishScan ((splitLines text).foldl processLine ⟨[], none, 0⟩),
   ((splitLines text).foldl processLine ⟨[], none, 0⟩).detectedChapters)

def MAX_CHAPTER_TOKENS : Nat := 6000

/-- `split(/\n{2,}/).filter(p => p.trim().length > 0)` — unlike the
chunker, the pieces themselves are kept untrimmed. -/
def splitParasKeep (text : Str) : List Str :=
  (splitParasGo false [] text).filter (fun p => decide (0 < (jsTrim p).length))

/-- One step of the greedy paragraph packer shared by
`splitLargeChapterInternal` and `createChaptersFromContent`: state is
`(emitted, currentContent, currentTokens, counter)`, and `mkChapter`
builds the chapter from the joined trimmed content and the counter. -/
def packStep (target : Nat) (mkChapter : Str → Nat → Chapter)
    (st : List Chapter × List Str × Nat × Nat) (p : Str) :
    List Chapter × List Str × Nat × Nat :=
  if target < st.2.2.1 + estimateTokens p ∧ st.2.1 ≠ [] then
    (st.1 ++ [mkChapter (jsTrim (List.intercalate "\n\n".data st.2.1)) st.2.2.2],
     [p], estimateTokens p, st.2.2.2 + 1)
  else
    (st.1, st.2.1 ++ [p], st.2.2.1 + estimateTokens p, st.2.2.2)

/-- A decimal numeral, for the `(Part k)` / `Section N` titles. -/
def natStr (n : Nat) : Str := (Nat.repr n).data

/-- `splitLargeChapterInternal` (lines 176–218). -/
def splitLargeChapterInternal (chapter : Chapter) : List Chapter :=
  let mk := fun (content : Str) (partNum : Nat) =>
    ({ order := 0
       title := chapter.title ++ " (Part ".data ++ natStr partNum ++ ")".data
       level := chapter.level
       content := content
       tokenCount := estimateTokens content } : Chapter)
  let packed := (splitParasKeep chapter.content).foldl
    (packStep MAX_CHAPTER_TOKENS mk) ([], [], 0, 1)
  if packed.2.1 ≠ [] then
    packed.1 ++
      [{ order := 0
         title :=
           if 1 < packed.2.2.2 then
             chapter.title ++ " (Part ".data ++ natStr packed.2.2.2 ++ ")".data
           else chapter.title
         level := chapter.level
         content := jsTrim (List.intercalate "\n\n".data packed.2.1)
         tokenCount := estimateTokens (jsTrim (List.intercalate "\n\n".data packed.2.1)) }]
  else packed.1

/-- `createChaptersFromContent` (lines 280–324): greedy ~3000-token
sections titled `Section N`. -/
def createChaptersFromContent (text : Str) : List Chapter :=
  let mk := fun (content : Str) (chapterNum : Nat) =>
    ({ order := 0
       title := "Section ".data ++ natStr chapterNum
       level := 1
       content := content
       tokenCount := estimateTokens content } : Chapter)
  let packed := (splitParasKeep text).foldl (packStep 3000 mk) ([], [], 0, 1)
  let withOrder := fun (chs : List Chapter) =>
    (chs.foldl (fun acc ch => acc ++ [{ ch with order := acc.length }]) [])
  if packed.2.1 ≠ [] then
    withOrder (packed.1 ++
      [{ order := 0
         title := "Section ".data ++ natStr packed.2.2.2
         level := 1
         content := jsTrim (List.intercalate "\n\n".data packed.2.1)
         tokenCount := estimateTokens (jsTrim (List.intercalate "\n\n".data packed.2.1)) }])
  else withOrder packed.1

/-- The oversize-splitting renumber loop (lines 147–164). -/
def renumberSplit (chapters : List Chapter) : List Chapter :=
  chapters.foldl
    (fun acc ch =>
      if MAX_CHAPTER_TOKENS < ch.tokenCount then
        (splitLargeChapterInternal ch).foldl
          (fun a sc => a ++ [{ sc with order := a.length }]) acc
      else acc ++ [{ ch with order := acc.length }])
    []

/-- `extractChapters` (lines 51–171). -/
def extractChapters (text : Str) : BookStructure :=
  if ¬ 3 ≤ (extractRaw text).2 ∧ (extractRaw text).1.length ≤ 2 then
    { chapters := createChaptersFromContent text
      hasDetectedStructure := false
      extractionMethod := ExtractionMethod.artificial }
  else
    { chapters := renumberSplit (extractRaw text).1
      hasDetectedStructure := 3 ≤ (extractRaw text).2
      extractionMethod := ExtractionMethod.regex }

/-- A text with a long preamble and exactly two detected chapter
headings: the regex scan detects 2 headings but assembles 3 chapters
(the synthetic `Introduction` plus the two detected ones). -/
def c6Text : Str :=
  List.replicate 110 'x' ++ '\n' :: "Chapter 1: Alpha".data ++
    '\n' :: List.replicate 110 'a' ++ '\n' :: "Chapter 2: Beta".data ++
    '\n' :: List.replicate 110 'b'

/-- C6 counterexample: on `c6Text` the extractor detects only 2 headings
(fewer than 3), yet the recorded extraction method is `regex`, not
`artificial`: the artificial fallback additionally requires the
assembled chapter list to have at most 2 entries, and the preamble
produced a third (`Introduction`) chapter. -/
theorem extractChapters_regex_despite_two_headings :
    (extractRaw c6Text).2 = 2 ∧
    (extractRaw c6Text).1.length = 3 ∧
    (extractChapters c6Text).hasDetectedStructure = false ∧
    (extractChapters c6Text).extractionMethod = ExtractionMethod.regex := by
  exact ⟨by decide, by decide, by decide, by decide⟩

/-- C6 (amended): when the regex extractor detects fewer than 3 headings
of level ≤ 2, the method recorded is `artificial` only if additionally at
most two chapters were assembled (in which case the chapters are the
greedy ~3000-token artificial sections and `hasDetectedStructure` is
false); with fewer than 3 detected headings but three or more assembled
chapters — e.g. an `Introduction` preamble plus two detected chapters —
the recorded method is `regex`. -/
theorem extractChapters_fallback_spec (text : Str)
    (hdet : (extractRaw text).2 < 3) :
    ((extractRaw text).1.length ≤ 2 →
      (extractChapters text).extractionMethod = ExtractionMethod.artificial ∧
      (extractChapters text).hasDetectedStructure = false ∧
      (extractChapters text).chapters = createChaptersFromContent text) ∧
    (2 < (extractRaw text).1.length →
      (extractChapters text).extractionMethod = ExtractionMethod.regex ∧
      (extractChapters text).chapters = renumberSplit (extractRaw text).1) := by
  constructor
  · intro hlen
    have hcond : ¬ 3 ≤ (extractRaw text).2 ∧ (extractRaw text).1.length ≤ 2 :=
      ⟨by omega, hlen⟩
    simp only [extractChapters, if_pos hcond]
    refine ⟨?_, ?_, ?_⟩ <;> trivial
  · intro hlen
    have hcond : ¬ (¬ 3 ≤ (extractRaw text).2 ∧ (extractRaw text).1.length ≤ 2) := by
      intro hc
      omega
    simp only [extractChapters, if_neg hcond]
    refine ⟨?_, ?_⟩ <;> trivial

theorem extractChapters_fallback_spec_witness :
    (extractRaw "short".data).2 < 3 ∧
    (extractRaw "short".data).1.length ≤ 2 ∧
    (extractChapters "short".data).extractionMethod = ExtractionMethod.artificial ∧
    (extractChapters "short".data).hasDetectedStructure = false := by
  have h := extractChapters_fallback_spec "short".data (by decide)
  have h1 := h.1 (by decide)
  exact ⟨by decide, by decide, h1.1, h1.2.1⟩

end Insighta
